import Mathlib

/-!
# chlib / ch559.c : a shallow embedding and its verified properties

The development models `src/ch559.c`, the hardware-abstraction layer for the
CH559 (an 8051-compatible microcontroller, compiled with SDCC: `int` is 16 bits
wide, `char` is 8 bits wide, integers are two's complement).

Conventions of the embedding.

* A byte (`uint8_t`, `char`) is a `Nat`; a conversion to `uint8_t` is an explicit
  `% 256`.  A 16-bit signed integer (`int`, `int16_t`) is an `Int`; arithmetic that can
  leave the 16-bit range is wrapped with `wrap16`.
* The serial output is the list of bytes handed to `Serial.putc`, oldest first.  The
  function table `Serial` is the one `initialize` installs (`putc = s_putc`,
  `printc = s_printc`, `print = s_print`, `println = s_println`, `printf = s_printf`).
* A C string is a list of bytes read up to its first zero byte; reading at the end of
  the list yields the terminator.
* The enumerators `BIN`, `HEX`, `DEC`, `LOW`, `HIGH`, `INPUT`, `INPUT_PULLUP`, `OUTPUT`
  are declared in the header `ch559.h`, not in `ch559.c`; their values are a parameter
  `K : Ch559H` of every function that mentions one of them, and what a property needs of
  them (that two of them differ, that one fits a byte) is a hypothesis of that property.
* A register is a field holding its value, a byte; registers are plain storage.
* The busy-wait loops are observed through the arguments passed to `delayU8us` and the
  number of passes through its two assembly loops, not through time.
* The bring-up is observed through the sequence of its register writes.  The constants of
  the register header (`MASK_SYS_CK_DIV`, `bUART0_PIN_X`, ...) are a parameter `io : IoH`;
  the build option `_NO_UART0` is the parameter `uart0 = false`.  The wait of `putchar` for
  the flag `TI` is taken to end, the transmitter raising the flag after each byte.
-/

namespace Ch559

/-! ## Header constants -/

/-- The enumerators of `ch559.h` used by `ch559.c`; their numeric values are a parameter. -/
structure Ch559H where
  BIN : Nat
  HEX : Nat
  DEC : Nat
  LOW : Nat
  HIGH : Nat
  INPUT : Nat
  INPUT_PULLUP : Nat
  OUTPUT : Nat
  deriving DecidableEq, Repr

/-- The three print styles are pairwise different values. -/
def Ch559H.stylesDistinct (K : Ch559H) : Prop :=
  K.BIN ≠ K.HEX ∧ K.BIN ≠ K.DEC ∧ K.HEX ≠ K.DEC

instance (K : Ch559H) : Decidable K.stylesDistinct := by
  unfold Ch559H.stylesDistinct; exact inferInstance

/-- A concrete assignment of the header constants, used to evaluate the model. -/
def K0 : Ch559H :=
  { BIN := 0, HEX := 1, DEC := 2, LOW := 0, HIGH := 1, INPUT := 0, INPUT_PULLUP := 1, OUTPUT := 2 }

/-! ## Machine integers -/

/-- Conversion of an integer to `int16_t` (two's complement wrap-around). -/
def wrap16 (z : Int) : Int := (z + 32768) % 65536 - 32768

/-- Conversion of an integer to `uint8_t`. -/
def toU8 (z : Int) : Nat := (z % 256).toNat

/-- Bitwise AND of two 16-bit signed integers, `a & b`, on their two's-complement
representations. -/
def and16 (a b : Int) : Int :=
  wrap16 (((a % 65536).toNat &&& (b % 65536).toNat : Nat) : Int)

/-! ## Serial output -/

/-- Embedding of `U4ToHex(uint8_t val)`: returns `'0' + val` below ten and `'a' + val - 10`
otherwise, converted to the return type `char`. -/
def U4ToHex (val : Nat) : Nat :=
  if val < 10 then (48 + val) % 256 else (97 + val - 10) % 256

/-- Embedding of `s_putc(uint8_t val)`: the byte `val` is appended to the serial output. -/
def s_putc (val : Nat) (out : List Nat) : List Nat := out ++ [val % 256]

/-- The loop `for (int i = 0x80; i; i >>= 1) Serial.putc((val & i) ? '1' : '0');` of
`s_printc`, started at the mask `i`. -/
def s_printc_bin (val : Int) (i : Nat) (out : List Nat) : List Nat :=
  if i = 0 then out
  else s_printc_bin val (i >>> 1) (s_putc (if and16 val i ≠ 0 then 49 else 48) out)
termination_by i
decreasing_by
  simp only [Nat.shiftRight_eq_div_pow]; omega

/-- Embedding of `s_printc(int16_t val, uint8_t type)`; `val` is a value of `int16_t`. -/
def s_printc (K : Ch559H) (val : Int) (type : Nat) (out : List Nat) : List Nat :=
  if type = K.BIN then
    s_printc_bin val 0x80 out
  else if type = K.HEX then
    let out1 :=
      if val ≥ 16 then s_putc (U4ToHex (toU8 (val >>> (4 : Nat)))) out
      else s_putc 48 out
    s_putc (U4ToHex (toU8 (and16 val 0x0f))) out1
  else if type = K.DEC then
    let out1 := if val < 0 then s_putc 45 out else out
    let val1 := if val < 0 then wrap16 (-val) else val
    let out2 := if val1 ≥ 100 then s_putc (U4ToHex (toU8 (Int.tdiv val1 100))) out1 else out1
    let out3 :=
      if val1 ≥ 10 then s_putc (U4ToHex (toU8 (Int.tdiv (Int.tmod val1 100) 10))) out2
      else out2
    s_putc (U4ToHex (toU8 (Int.tmod val1 10))) out3
  else out

/-- Embedding of `s_print(const char* val)`: the bytes before the terminator are emitted
in order. -/
def s_print : List Nat → List Nat → List Nat
  | [], out => out
  | c :: cs, out => if c = 0 then out else s_print cs (s_putc c out)

/-- Embedding of `s_println(const char* val)`: `print(val)` then `print("\r\n")`. -/
def s_println (val : List Nat) (out : List Nat) : List Nat :=
  s_print [13, 10] (s_print val out)

/-! ## The format scanner -/

/-- A variadic argument: an `int` or a pointer to a C string. -/
inductive Arg where
  | int (v : Int)
  | str (s : List Nat)
  deriving DecidableEq, Repr

/-- The local variables of `s_printf` together with the serial output: the 8-bit loop
index `i`, the flag `escape`, the unread variadic arguments `ap`, and the output. -/
structure PfState where
  i : Nat
  escape : Bool
  ap : List Arg
  out : List Nat
  deriving DecidableEq, Repr

/-- How a run of the loop of `s_printf` ends: `done` when the terminator was read,
`undef` when `va_arg` was asked for an argument that is absent or of the other kind
(undefined behaviour in C), `more` when the iteration budget ran out before either. -/
inductive Outcome where
  | done (st : PfState)
  | undef (st : PfState)
  | more (st : PfState)
  deriving DecidableEq, Repr

/-- One pass through the body of the `for` loop of `s_printf` at the character
`c = fmt[i]`, followed by the increment `++i` of the `uint8_t` index.  The result is
`none` when `va_arg` has no argument of the requested kind to return. -/
def s_printf_body (K : Ch559H) (c : Nat) (st : PfState) : Option PfState :=
  if st.escape = false then
    let out1 := if 10 = c then s_putc 13 st.out else st.out
    if 37 = c then
      some { st with i := (st.i + 1) % 256, escape := true, out := out1 }
    else
      some { st with i := (st.i + 1) % 256, out := s_putc c out1 }
  else if c = 100 then
    match st.ap with
    | Arg.int v :: ap =>
      some { i := (st.i + 1) % 256, escape := false, ap := ap, out := s_printc K v K.DEC st.out }
    | _ => none
  else if c = 98 then
    match st.ap with
    | Arg.int v :: ap =>
      some { i := (st.i + 1) % 256, escape := false, ap := ap, out := s_printc K v K.BIN st.out }
    | _ => none
  else if c = 120 then
    match st.ap with
    | Arg.int v :: ap =>
      some { i := (st.i + 1) % 256, escape := false, ap := ap, out := s_printc K v K.HEX st.out }
    | _ => none
  else if c = 115 then
    match st.ap with
    | Arg.str s :: ap =>
      some { i := (st.i + 1) % 256, escape := false, ap := ap, out := s_print s st.out }
    | _ => none
  else
    some { st with i := (st.i + 1) % 256, escape := false }

/-- The loop `for (uint8_t i = 0; fmt[i]; ++i) { ... }` of `s_printf`, run for at most
`fuel` tests of the loop condition. -/
def s_printf_loop (K : Ch559H) (fmt : List Nat) : Nat → PfState → Outcome
  | 0, st => Outcome.more st
  | fuel + 1, st =>
    if fmt.getD st.i 0 = 0 then Outcome.done st
    else
      match s_printf_body K (fmt.getD st.i 0) st with
      | none => Outcome.undef st
      | some st1 => s_printf_loop K fmt fuel st1

/-- Embedding of `s_printf(const char* fmt, ...)`: the loop is entered with `i = 0`,
`escape = false` and the variadic arguments `args`; `out` is the output so far. -/
def s_printf (K : Ch559H) (fuel : Nat) (fmt : List Nat) (args : List Arg)
    (out : List Nat) : Outcome :=
  s_printf_loop K fmt fuel { i := 0, escape := false, ap := args, out := out }

/-! ## GPIO -/

/-- The registers the GPIO functions touch (data, direction and pull-up register of the
five ports; port 4 is read through `P4_IN`), and the serial output. -/
structure Regs where
  P0 : Nat
  P1 : Nat
  P2 : Nat
  P3 : Nat
  P4_IN : Nat
  P0_DIR : Nat
  P1_DIR : Nat
  P2_DIR : Nat
  P3_DIR : Nat
  P4_DIR : Nat
  P0_PU : Nat
  P1_PU : Nat
  P2_PU : Nat
  P3_PU : Nat
  P4_PU : Nat
  out : List Nat
  deriving DecidableEq, Repr

/-- The operator `~` applied to a `uint8_t` (promoted to `int`) with the result stored
back into a `uint8_t`. -/
def not8 (m : Nat) : Nat := toU8 (-1 - (m : Int))

/-- The string literal `"N/A"`. -/
def strNA : List Nat := [78, 47, 65]

/-- The `switch (port)` of `pinMode` whose cases are `Pn_PU |= mask`. -/
def pinMode_pu_set (port mask : Nat) (s : Regs) : Regs :=
  match port with
  | 0 => { s with P0_PU := s.P0_PU ||| mask }
  | 1 => { s with P1_PU := s.P1_PU ||| mask }
  | 2 => { s with P2_PU := s.P2_PU ||| mask }
  | 3 => { s with P3_PU := s.P3_PU ||| mask }
  | 4 => { s with P4_PU := s.P4_PU ||| mask }
  | _ => { s with out := s_println strNA s.out }

/-- The `switch (port)` of `pinMode` whose cases are `Pn_PU &= mask`. -/
def pinMode_pu_clear (port mask : Nat) (s : Regs) : Regs :=
  match port with
  | 0 => { s with P0_PU := s.P0_PU &&& mask }
  | 1 => { s with P1_PU := s.P1_PU &&& mask }
  | 2 => { s with P2_PU := s.P2_PU &&& mask }
  | 3 => { s with P3_PU := s.P3_PU &&& mask }
  | 4 => { s with P4_PU := s.P4_PU &&& mask }
  | _ => { s with out := s_println strNA s.out }

/-- The `switch (port)` of `pinMode` whose cases are `Pn_DIR |= mask`. -/
def pinMode_dir_set (port mask : Nat) (s : Regs) : Regs :=
  match port with
  | 0 => { s with P0_DIR := s.P0_DIR ||| mask }
  | 1 => { s with P1_DIR := s.P1_DIR ||| mask }
  | 2 => { s with P2_DIR := s.P2_DIR ||| mask }
  | 3 => { s with P3_DIR := s.P3_DIR ||| mask }
  | 4 => { s with P4_DIR := s.P4_DIR ||| mask }
  | _ => { s with out := s_println strNA s.out }

/-- The `switch (port)` of `pinMode` whose cases are `Pn_DIR &= mask`. -/
def pinMode_dir_clear (port mask : Nat) (s : Regs) : Regs :=
  match port with
  | 0 => { s with P0_DIR := s.P0_DIR &&& mask }
  | 1 => { s with P1_DIR := s.P1_DIR &&& mask }
  | 2 => { s with P2_DIR := s.P2_DIR &&& mask }
  | 3 => { s with P3_DIR := s.P3_DIR &&& mask }
  | 4 => { s with P4_DIR := s.P4_DIR &&& mask }
  | _ => { s with out := s_println strNA s.out }

/-- Embedding of `pinMode(uint8_t port, uint8_t bit, uint8_t mode)`.  The variable `mask`
is `1 << bit` on entry; the first `else` branch complements it before its `switch` and
again after it, the second `else` branch complements it before its `switch`. -/
def pinMode (K : Ch559H) (port bit mode : Nat) (s : Regs) : Regs :=
  let mask := (1 <<< bit) % 256
  let s1 :=
    if mode = K.INPUT_PULLUP then pinMode_pu_set port mask s
    else pinMode_pu_clear port (not8 mask) s
  let mask1 := if mode = K.INPUT_PULLUP then mask else not8 (not8 mask)
  if mode = K.OUTPUT then pinMode_dir_set port mask1 s1
  else pinMode_dir_clear port (not8 mask1) s1

/-- The `switch (port)` of `digitalWrite` whose cases are `Pn |= mask`. -/
def digitalWrite_set (port mask : Nat) (s : Regs) : Regs :=
  match port with
  | 0 => { s with P0 := s.P0 ||| mask }
  | 1 => { s with P1 := s.P1 ||| mask }
  | 2 => { s with P2 := s.P2 ||| mask }
  | 3 => { s with P3 := s.P3 ||| mask }
  | _ => { s with out := s_println strNA s.out }

/-- The `switch (port)` of `digitalWrite` whose cases are `Pn &= mask`. -/
def digitalWrite_clear (port mask : Nat) (s : Regs) : Regs :=
  match port with
  | 0 => { s with P0 := s.P0 &&& mask }
  | 1 => { s with P1 := s.P1 &&& mask }
  | 2 => { s with P2 := s.P2 &&& mask }
  | 3 => { s with P3 := s.P3 &&& mask }
  | _ => { s with out := s_println strNA s.out }

/-- Embedding of `digitalWrite(uint8_t port, uint8_t bit, uint8_t value)`. -/
def digitalWrite (K : Ch559H) (port bit value : Nat) (s : Regs) : Regs :=
  let mask := (1 <<< bit) % 256
  if value = K.HIGH then digitalWrite_set port mask s
  else digitalWrite_clear port (not8 mask) s

/-- Embedding of `digitalReadPort(uint8_t port)`: the byte returned and the state after
the call. -/
def digitalReadPort (port : Nat) (s : Regs) : Nat × Regs :=
  match port with
  | 0 => (s.P0 % 256, s)
  | 1 => (s.P1 % 256, s)
  | 2 => (s.P2 % 256, s)
  | 3 => (s.P3 % 256, s)
  | 4 => (s.P4_IN % 256, s)
  | _ => (0, { s with out := s_println strNA s.out })

/-- Embedding of `digitalRead(uint8_t port, uint8_t pin)`: the level returned and the
state after the call. -/
def digitalRead (K : Ch559H) (port pin : Nat) (s : Regs) : Nat × Regs :=
  let r := digitalReadPort port s
  ((if and16 (r.1 : Int) (wrap16 ((1 <<< pin : Nat) : Int)) ≠ 0 then K.HIGH else K.LOW) % 256, r.2)

/-! ## Notions used to state the properties -/

/-- The sixteen lower-case hexadecimal digits, `0123456789abcdef`, as bytes. -/
def hexDigits : List Nat :=
  [48, 49, 50, 51, 52, 53, 54, 55, 56, 57, 97, 98, 99, 100, 101, 102]

/-- The number written by a non-empty text of decimal digits, most significant digit
first; `none` for the empty text and for a text with a byte that is no digit. -/
def parseDigits (ds : List Nat) : Option Nat :=
  if ds = [] then none
  else ds.foldl
    (fun acc d => acc.bind fun n => if 48 ≤ d ∧ d ≤ 57 then some (10 * n + (d - 48)) else none)
    (some 0)

/-- The integer written by a signed decimal text: an optional `-` and then digits. -/
def parseDec (s : List Nat) : Option Int :=
  if s.head? = some 45 then (parseDigits s.tail).map fun n => -(n : Int)
  else (parseDigits s).map fun n => (n : Int)

/-- The decimal text of a number below one thousand: hundreds digit from one hundred on,
tens digit from ten on, units digit always. -/
def decText (n : Nat) : List Nat :=
  (if 100 ≤ n then [48 + n / 100] else []) ++ (if 10 ≤ n then [48 + n % 100 / 10] else []) ++
    [48 + n % 10]

/-- A list of bytes that is the content of a C string: no byte is the terminator and
every byte fits a `char`. -/
def CStr (fmt : List Nat) : Prop := ∀ c ∈ fmt, c ≠ 0 ∧ c < 256

instance (fmt : List Nat) : Decidable (CStr fmt) := by
  unfold CStr; exact inferInstance

/-- The reading of a format string the specification gives for `printf`, as a function of
the format, the arguments and the output so far: `%d`, `%b`, `%x` take one integer
argument each and print it with `printc` in the style DEC, BIN, HEX; `%s` takes one string
argument and prints its characters; a `%` before any other character is dropped together
with that character, and a `%` at the end is dropped; a newline is written as carriage
return and newline; every other character is copied.  The result is the remaining
arguments and the output, or `none` when a conversion finds no argument of its kind. -/
def printf_spec (K : Ch559H) : List Nat → List Arg → List Nat → Option (List Arg × List Nat)
  | [], ap, out => some (ap, out)
  | c :: rest, ap, out =>
    if c = 37 then
      match rest with
      | [] => some (ap, out)
      | d :: rest1 =>
        if d = 100 then
          match ap with
          | Arg.int v :: ap1 => printf_spec K rest1 ap1 (s_printc K v K.DEC out)
          | _ => none
        else if d = 98 then
          match ap with
          | Arg.int v :: ap1 => printf_spec K rest1 ap1 (s_printc K v K.BIN out)
          | _ => none
        else if d = 120 then
          match ap with
          | Arg.int v :: ap1 => printf_spec K rest1 ap1 (s_printc K v K.HEX out)
          | _ => none
        else if d = 115 then
          match ap with
          | Arg.str str :: ap1 => printf_spec K rest1 ap1 (s_print str out)
          | _ => none
        else printf_spec K rest1 ap out
    else if c = 10 then printf_spec K rest ap (out ++ [13, 10])
    else printf_spec K rest ap (out ++ [c])

/-- The run of `s_printf` never ends: whatever the iteration budget, the loop is still
going when it is used up, and no variadic argument has been read. -/
def s_printf_diverges (K : Ch559H) (fmt : List Nat) (args : List Arg) : Prop :=
  ∀ fuel, ∃ st, s_printf K fuel fmt args [] = Outcome.more st ∧ st.ap = args

/-- The data register `digitalReadPort` reads for a port. -/
def Regs.data (s : Regs) (port : Nat) : Nat :=
  match port with
  | 0 => s.P0
  | 1 => s.P1
  | 2 => s.P2
  | 3 => s.P3
  | 4 => s.P4_IN
  | _ => 0

/-- The direction register of a port. -/
def Regs.dir (s : Regs) (port : Nat) : Nat :=
  match port with
  | 0 => s.P0_DIR
  | 1 => s.P1_DIR
  | 2 => s.P2_DIR
  | 3 => s.P3_DIR
  | 4 => s.P4_DIR
  | _ => 0

/-- The pull-up register of a port. -/
def Regs.pu (s : Regs) (port : Nat) : Nat :=
  match port with
  | 0 => s.P0_PU
  | 1 => s.P1_PU
  | 2 => s.P2_PU
  | 3 => s.P3_PU
  | 4 => s.P4_PU
  | _ => 0

/-- The state `s` with the data register of a port replaced by `v`. -/
def Regs.setData (s : Regs) (port v : Nat) : Regs :=
  match port with
  | 0 => { s with P0 := v }
  | 1 => { s with P1 := v }
  | 2 => { s with P2 := v }
  | 3 => { s with P3 := v }
  | 4 => { s with P4_IN := v }
  | _ => s

/-- The two output levels are different values of `uint8_t`. -/
def Ch559H.levelsOk (K : Ch559H) : Prop :=
  K.HIGH ≠ K.LOW ∧ K.HIGH < 256 ∧ K.LOW < 256

instance (K : Ch559H) : Decidable K.levelsOk := by
  unfold Ch559H.levelsOk; exact inferInstance

/-- A register state with every register cleared and nothing sent yet. -/
def Regs.zero : Regs :=
  { P0 := 0, P1 := 0, P2 := 0, P3 := 0, P4_IN := 0, P0_DIR := 0, P1_DIR := 0, P2_DIR := 0,
    P3_DIR := 0, P4_DIR := 0, P0_PU := 0, P1_PU := 0, P2_PU := 0, P3_PU := 0, P4_PU := 0,
    out := [] }

/-- The C string stored in `fmt` from index `i` on is `suf`: the bytes of `suf`, then the
terminator. -/
def StrAt (fmt : List Nat) (i : Nat) (suf : List Nat) : Prop :=
  ∀ j, fmt.getD (i + j) 0 = suf.getD j 0

/-- How a character outside a conversion appears in the output: a newline as carriage
return and newline, any other character as itself. -/
def crlf (c : Nat) : List Nat := if c = 10 then [13, 10] else [c]

/-- The state after `pinMode(port, bit, INPUT_PULLUP)` followed by `digitalRead(port,
bit)`. -/
def afterPullupRead (K : Ch559H) (port bit : Nat) (s : Regs) : Regs :=
  (digitalRead K port bit (pinMode K port bit K.INPUT_PULLUP s)).2

/-- The values of the index `i` at the successive tests of the loop condition `fmt[i]` of
`s_printf`, in the order of the tests: the loop of `s_printf_loop`, recording the index
instead of the outcome. -/
def s_printf_visits (K : Ch559H) (fmt : List Nat) : Nat → PfState → List Nat
  | 0, _ => []
  | fuel + 1, st =>
    st.i ::
      (if fmt.getD st.i 0 = 0 then []
      else
        match s_printf_body K (fmt.getD st.i 0) st with
        | none => []
        | some st1 => s_printf_visits K fmt fuel st1)

/-! ## Busy-wait delays -/

/-- What the delay functions are observed by: the arguments of the calls of `delayU8us`, in
order, and the number of passes through the bodies of its outer loop (`loop1`) and of its
inner loop (`loop2`). -/
structure DelayState where
  calls : List Nat
  outer : Nat
  inner : Nat
  deriving DecidableEq, Repr

/-- A delay state with no call made and no pass counted. -/
def DelayState.zero : DelayState := { calls := [], outer := 0, inner := 0 }

/-- The inner loop of `delayU8us`, `loop2$: dec a; jnz loop2$`, entered with the
accumulator `a`: the 8-bit accumulator is decremented and the loop repeats while the result
is not zero.  The result is the count of passes, `n` being the count before. -/
def delayU8us_loop2 (a : Nat) (n : Nat) : Nat :=
  if (a + 255) % 256 = 0 then n + 1 else delayU8us_loop2 ((a + 255) % 256) (n + 1)
termination_by (a + 255) % 256
decreasing_by omega

/-- The outer loop of `delayU8us`, entered at `loop1$` with the register `r7`: `mov a,#8`,
the inner loop, two `nop`, then `dec r7; mov a,r7; jnz loop1$`. -/
def delayU8us_loop1 (r7 : Nat) (st : DelayState) : DelayState :=
  if (r7 + 255) % 256 = 0 then
    { st with outer := st.outer + 1, inner := delayU8us_loop2 8 st.inner }
  else
    delayU8us_loop1 ((r7 + 255) % 256)
      { st with outer := st.outer + 1, inner := delayU8us_loop2 8 st.inner }
termination_by (r7 + 255) % 256
decreasing_by omega

/-- Embedding of `delayU8us(uint8_t us)`: the argument is moved to `r7` and the outer loop
is entered. -/
def delayU8us (us : Nat) (st : DelayState) : DelayState :=
  delayU8us_loop1 (us % 256) { st with calls := st.calls ++ [us % 256] }

/-- Embedding of `delayMicroseconds(uint32_t us)`. -/
def delayMicroseconds (us : Nat) (st : DelayState) : DelayState :=
  if us > 255 then delayMicroseconds (us - 255) (delayU8us 255 st)
  else delayU8us (us &&& 0xff) st
termination_by us
decreasing_by omega

/-! ## Bring-up -/

/-- The constants of the register header that `initialize` uses; the header is not part of
`ch559.c`, so their values are a parameter. -/
structure IoH where
  MASK_SYS_CK_DIV : Nat
  bUART0_PIN_X : Nat
  bT1_M1 : Nat
  bTMR_CLK : Nat
  bT1_CLK : Nat
  SMOD : Nat
  deriving DecidableEq, Repr

/-- A concrete assignment of the register-header constants, used to evaluate the model. -/
def io0 : IoH :=
  { MASK_SYS_CK_DIV := 0x1f, bUART0_PIN_X := 0x10, bT1_M1 := 0x20, bTMR_CLK := 0x80,
    bT1_CLK := 0x20, SMOD := 0x80 }

/-- The special-function registers and register bits `initialize` and `putchar` write. -/
inductive Reg where
  | SAFE_MOD | CLOCK_CFG | PLL_CFG | P0_DIR | P0_PU | PIN_FUNC | SM0 | SM1 | TMOD | T2MOD
  | PCON | TH1 | TR1 | TI | SBUF | PORT_CFG | RESET_KEEP
  deriving DecidableEq, Repr

/-- The five static functions a field of `Serial` can point to. -/
inductive SerialFn where
  | s_putc | s_printc | s_print | s_println | s_printf
  deriving DecidableEq, Repr

/-- The function table `struct SerialLibrary`; a field is `none` until it is assigned. -/
structure SerialLibrary where
  putc : Option SerialFn
  printc : Option SerialFn
  print : Option SerialFn
  println : Option SerialFn
  printf : Option SerialFn
  deriving DecidableEq, Repr

/-- The machine as `initialize` sees it: the value of every register, the table `Serial`,
the bytes handed to `Serial.putc`, and the register writes made so far, oldest first. -/
structure Mcu where
  reg : Reg → Nat
  Serial : SerialLibrary
  out : List Nat
  writes : List (Reg × Nat)

/-- An assignment `r = v` to a register: the byte `v` is stored and the write recorded. -/
def writeReg (r : Reg) (v : Nat) (m : Mcu) : Mcu :=
  { m with reg := fun x => if x = r then v % 256 else m.reg x,
           writes := m.writes ++ [(r, v % 256)] }

/-- The operator `~` on an `int`, on 16-bit two's-complement representations. -/
def not16 (x : Nat) : Nat := 65535 - x % 65536

/-- Embedding of `putchar(int c)`: after the wait for `TI` (the transmitter raises the flag
when the byte before has left; the wait writes nothing), `TI = 0` and `SBUF = c & 0xff`. -/
def Mcu.putchar (c : Nat) (m : Mcu) : Mcu :=
  writeReg Reg.SBUF (c &&& 0xff) (writeReg Reg.TI 0 m)

/-- Embedding of `s_putc(uint8_t val)` on the machine: `putchar(val)` unless the program is
built with `_NO_UART0` (`uart0 = false`); the byte counts as handed to `Serial.putc`. -/
def Mcu.s_putc (uart0 : Bool) (val : Nat) (m : Mcu) : Mcu :=
  let m1 := if uart0 then Mcu.putchar (val % 256) m else m
  { m1 with out := m1.out ++ [val % 256] }

/-- A call `Serial.putc(val)`: undefined unless the field holds `s_putc`. -/
def Mcu.call_putc (uart0 : Bool) (val : Nat) (m : Mcu) : Option Mcu :=
  match m.Serial.putc with
  | some SerialFn.s_putc => some (Mcu.s_putc uart0 val m)
  | _ => none

/-- Embedding of `s_print(const char* val)` on the machine. -/
def Mcu.s_print (uart0 : Bool) : List Nat → Mcu → Option Mcu
  | [], m => some m
  | c :: cs, m =>
    if c = 0 then some m
    else
      match Mcu.call_putc uart0 c m with
      | none => none
      | some m1 => Mcu.s_print uart0 cs m1

/-- A call `Serial.print(val)`: undefined unless the field holds `s_print`. -/
def Mcu.call_print (uart0 : Bool) (val : List Nat) (m : Mcu) : Option Mcu :=
  match m.Serial.print with
  | some SerialFn.s_print => Mcu.s_print uart0 val m
  | _ => none

/-- Embedding of `s_println(const char* val)` on the machine. -/
def Mcu.s_println (uart0 : Bool) (val : List Nat) (m : Mcu) : Option Mcu :=
  match Mcu.call_print uart0 val m with
  | none => none
  | some m1 => Mcu.call_print uart0 [13, 10] m1

/-- A call `Serial.println(val)`: undefined unless the field holds `s_println`. -/
def Mcu.call_println (uart0 : Bool) (val : List Nat) (m : Mcu) : Option Mcu :=
  match m.Serial.println with
  | some SerialFn.s_println => Mcu.s_println uart0 val m
  | _ => none

/-- The string literal `"bootloader"`. -/
def strBootloader : List Nat := [98, 111, 111, 116, 108, 111, 97, 100, 101, 114]

/-- The part of `initialize` before `if (RESET_KEEP)`: the clock set-up between
`enter_safe_mode()` and `leave_safe_mode()`, the UART pins (left out with `_NO_UART0`),
the UART mode, the baud-rate timer, `PORT_CFG`, and the five fields of `Serial`. -/
def initialize_setup (io : IoH) (uart0 : Bool) (m : Mcu) : Mcu :=
  let m := writeReg Reg.SAFE_MOD 0x55 m
  let m := writeReg Reg.SAFE_MOD 0xaa m
  let m := writeReg Reg.CLOCK_CFG ((m.reg Reg.CLOCK_CFG &&& not16 io.MASK_SYS_CK_DIV) ||| 6) m
  let m := writeReg Reg.PLL_CFG (((24 <<< 0) ||| (6 <<< 5)) &&& 0xff) m
  let m := writeReg Reg.SAFE_MOD 0 m
  let m :=
    if uart0 then
      let m := writeReg Reg.P0_DIR (m.reg Reg.P0_DIR ||| 0x08) m
      let m := writeReg Reg.P0_PU (m.reg Reg.P0_PU ||| 0x08) m
      writeReg Reg.PIN_FUNC (m.reg Reg.PIN_FUNC ||| io.bUART0_PIN_X) m
    else m
  let m := writeReg Reg.SM0 0 m
  let m := writeReg Reg.SM1 1 m
  let m := writeReg Reg.TMOD (m.reg Reg.TMOD ||| io.bT1_M1) m
  let m := writeReg Reg.T2MOD (m.reg Reg.T2MOD ||| (io.bTMR_CLK ||| io.bT1_CLK)) m
  let m := writeReg Reg.PCON (m.reg Reg.PCON ||| io.SMOD) m
  let m := writeReg Reg.TH1 230 m
  let m := writeReg Reg.TR1 1 m
  let m := writeReg Reg.TI 1 m
  let m := writeReg Reg.PORT_CFG 0x00 m
  { m with Serial :=
      { putc := some SerialFn.s_putc, printc := some SerialFn.s_printc,
        print := some SerialFn.s_print, println := some SerialFn.s_println,
        printf := some SerialFn.s_printf } }

/-- How `initialize` ends: it returns in the state `m`, or it calls `runBootloader()` in the
state `m` (the entry point at 0xf400 is outside the program), or a call through an
unassigned field of `Serial` makes it undefined. -/
inductive InitOutcome where
  | returned (m : Mcu)
  | bootloader (m : Mcu)
  | undef

/-- Embedding of `initialize()` up to its return or its call of `runBootloader()` (the bare
name is a keyword of Lean). -/
def initialize_run (io : IoH) (uart0 : Bool) (m : Mcu) : InitOutcome :=
  let m1 := initialize_setup io uart0 m
  if m1.reg Reg.RESET_KEEP ≠ 0 then
    match Mcu.call_println uart0 strBootloader (writeReg Reg.RESET_KEEP 0 m1) with
    | none => InitOutcome.undef
    | some m3 => InitOutcome.bootloader m3
  else InitOutcome.returned (writeReg Reg.RESET_KEEP 1 m1)

/-- The rest of `initialize()` in case `runBootloader()` returns, in the state `m`. -/
def initialize_resume (m : Mcu) : Mcu := writeReg Reg.RESET_KEEP 1 m

/-- The state in which `initialize` returns or calls the bootloader. -/
def InitOutcome.state : InitOutcome → Option Mcu
  | InitOutcome.returned m => some m
  | InitOutcome.bootloader m => some m
  | InitOutcome.undef => none

/-- A machine with every register cleared, an unassigned table and nothing written. -/
def Mcu.zero : Mcu :=
  { reg := fun _ => 0,
    Serial := { putc := none, printc := none, print := none, println := none, printf := none },
    out := [], writes := [] }

/-- The registers that may be written only between unlock and lock, and the lock register
itself. -/
def Reg.guarded (r : Reg) : Bool :=
  r = Reg.SAFE_MOD ∨ r = Reg.CLOCK_CFG ∨ r = Reg.PLL_CFG

/-- A machine with `RESET_KEEP` set, `CLOCK_CFG` holding 0xe3, every other register
cleared and an unassigned table. -/
def Mcu.sample : Mcu :=
  { Mcu.zero with
    reg := fun r => if r = Reg.RESET_KEEP then 1 else if r = Reg.CLOCK_CFG then 0xe3 else 0 }

/-! ## Machine integers: lemmas -/

theorem wrap16_of_range (z : Int) (h0 : -32768 ≤ z) (h1 : z ≤ 32767) : wrap16 z = z := by
  unfold wrap16; omega

theorem toU8_natCast (n : Nat) (h : n < 256) : toU8 (n : Int) = n := by
  unfold toU8; omega

theorem and16_natCast (a b : Nat) (ha : a < 32768) (hb : b < 65536) :
    and16 (a : Int) (b : Int) = ((a &&& b : Nat) : Int) := by
  unfold and16
  have h1 : ((a : Int) % 65536).toNat = a := by omega
  have h2 : ((b : Int) % 65536).toNat = b := by omega
  rw [h1, h2]
  have h3 : a &&& b ≤ a := Nat.and_le_left
  apply wrap16_of_range <;> omega

theorem and16_two_pow_ne_zero (n j : Nat) (hn : n < 32768) (hj : j < 16) :
    and16 (n : Int) ((2 ^ j : Nat) : Int) ≠ 0 ↔ n.testBit j = true := by
  have hb : 2 ^ j < 65536 := by
    have : 2 ^ j < 2 ^ 16 := Nat.pow_lt_pow_right (by decide) hj
    simpa using this
  rw [and16_natCast n (2 ^ j) hn hb, Nat.and_two_pow]
  have hp : 0 < 2 ^ j := Nat.pos_pow_of_pos j (by decide)
  cases h : n.testBit j <;> simp [Bool.toNat]

/-! ## `printc` -/

theorem U4ToHex_digit (d : Nat) (h : d < 10) : U4ToHex d = 48 + d := by
  unfold U4ToHex; rw [if_pos h]; omega

theorem U4ToHex_hexDigits (d : Nat) (h : d < 16) : U4ToHex d = hexDigits.getD d 0 := by
  interval_cases d <;> rfl

/-- The eight iterations of the BIN loop, written out. -/
theorem s_printc_bin_eq (val : Int) (out : List Nat) :
    s_printc_bin val 128 out =
      out ++ [if and16 val 128 ≠ 0 then 49 else 48, if and16 val 64 ≠ 0 then 49 else 48,
        if and16 val 32 ≠ 0 then 49 else 48, if and16 val 16 ≠ 0 then 49 else 48,
        if and16 val 8 ≠ 0 then 49 else 48, if and16 val 4 ≠ 0 then 49 else 48,
        if and16 val 2 ≠ 0 then 49 else 48, if and16 val 1 ≠ 0 then 49 else 48] := by
  rw [s_printc_bin, if_neg (by decide), s_printc_bin, if_neg (by decide), s_printc_bin,
    if_neg (by decide), s_printc_bin, if_neg (by decide), s_printc_bin, if_neg (by decide),
    s_printc_bin, if_neg (by decide), s_printc_bin, if_neg (by decide), s_printc_bin,
    if_neg (by decide), s_printc_bin, if_pos (by decide)]
  simp only [s_putc, List.append_assoc, List.singleton_append, ne_eq, ite_not]
  have h : ∀ p : Prop, ∀ [Decidable p], (if p then 48 else 49) % 256 = if p then 48 else 49 := by
    intro p _; split <;> rfl
  simp only [h]
  rfl

/-- The DEC output for a value in 0..999. -/
theorem s_printc_dec_natCast (K : Ch559H) (hK : K.stylesDistinct) (n : Nat) (hn : n < 1000)
    (out : List Nat) : s_printc K (n : Int) K.DEC out = out ++ decText n := by
  obtain ⟨h1, h2, h3⟩ := hK
  have e1 : Int.tdiv (n : Int) 100 = ((n / 100 : Nat) : Int) := (Int.ofNat_tdiv n 100).symm
  have e2 : Int.tdiv (Int.tmod (n : Int) 100) 10 = ((n % 100 / 10 : Nat) : Int) := by
    rw [Int.tmod_eq_emod (by omega) (by omega), Int.tdiv_eq_ediv (by omega) (by omega)]
    omega
  have e3 : Int.tmod (n : Int) 10 = ((n % 10 : Nat) : Int) := (Int.ofNat_tmod n 10).symm
  have c1 : ¬ ((n : Int) < 0) := by omega
  simp only [s_printc, if_neg (Ne.symm h2), if_neg (Ne.symm h3), if_true, if_neg c1, e1, e2, e3]
  rw [toU8_natCast _ (by omega), toU8_natCast _ (by omega), toU8_natCast _ (by omega),
    U4ToHex_digit _ (by omega), U4ToHex_digit _ (by omega), U4ToHex_digit _ (by omega)]
  unfold decText s_putc
  by_cases a : 100 ≤ n <;> by_cases b : 10 ≤ n <;>
    simp [a, b, Nat.mod_eq_of_lt, show (48 + n / 100) % 256 = 48 + n / 100 by omega,
      show (48 + n % 100 / 10) % 256 = 48 + n % 100 / 10 by omega,
      show (48 + n % 10) % 256 = 48 + n % 10 by omega]

/-- The DEC output for a value in -999..-1. -/
theorem s_printc_dec_neg (K : Ch559H) (hK : K.stylesDistinct) (n : Nat) (h0 : 0 < n)
    (hn : n < 1000) (out : List Nat) :
    s_printc K (-(n : Int)) K.DEC out = out ++ 45 :: decText n := by
  have e := s_printc_dec_natCast K hK n hn (out ++ [45])
  obtain ⟨h1, h2, h3⟩ := hK
  have c1 : (-(n : Int)) < 0 := by omega
  have w : wrap16 (- -(n : Int)) = (n : Int) := by
    rw [wrap16_of_range] <;> omega
  have c2 : ¬ ((n : Int) < 0) := by omega
  simp only [s_printc, if_neg (Ne.symm h2), if_neg (Ne.symm h3), if_true, if_pos c1, w] at e ⊢
  simp only [if_neg c2] at e
  simpa [s_putc] using e

/-- The text `decText n` is the decimal numeral of `n`: digits only, no leading zero, and it
reads back as `n`. -/
theorem decText_spec (n : Nat) (hn : n < 1000) :
    decText n ≠ [] ∧ (∀ d ∈ decText n, 48 ≤ d ∧ d ≤ 57) ∧
      ((decText n).head? = some 48 → decText n = [48]) ∧ parseDigits (decText n) = some n := by
  unfold decText parseDigits
  have h1 : 48 + n / 100 ≤ 57 := by omega
  have h2 : 48 + n % 100 / 10 ≤ 57 := by omega
  have h3 : 48 + n % 10 ≤ 57 := by omega
  by_cases a : 100 ≤ n <;> by_cases b : 10 ≤ n <;> simp [a, b, h1, h2, h3] <;> omega

theorem decText_head_ne_minus (n : Nat) : (decText n).head? ≠ some 45 := by
  unfold decText
  by_cases a : 100 ≤ n <;> by_cases b : 10 ≤ n <;> simp [a, b] <;> omega

theorem decText_zero : decText 0 = [48] := by decide

/-- The HEX output for a value in 0..255. -/
theorem s_printc_hex_natCast (K : Ch559H) (hK : K.BIN ≠ K.HEX) (n : Nat) (hn : n < 256)
    (out : List Nat) :
    s_printc K (n : Int) K.HEX out =
      out ++ [hexDigits.getD (n / 16) 0, hexDigits.getD (n % 16) 0] := by
  have hlo : and16 (n : Int) 15 = ((n % 16 : Nat) : Int) := by
    have e := and16_natCast n 15 (by omega) (by decide)
    have m : n &&& 15 = n % 16 := Nat.and_pow_two_sub_one_eq_mod n 4
    rw [m] at e
    exact e
  have hhi : (n : Int) >>> (4 : Nat) = ((n / 16 : Nat) : Int) := by
    rw [Int.shiftRight_eq_div_pow]; norm_num
  have d1 : U4ToHex (n % 16) = hexDigits.getD (n % 16) 0 := U4ToHex_hexDigits _ (by omega)
  have d2 : U4ToHex (n / 16) = hexDigits.getD (n / 16) 0 := U4ToHex_hexDigits _ (by omega)
  have r1 : hexDigits.getD (n % 16) 0 % 256 = hexDigits.getD (n % 16) 0 := by
    have : n % 16 < 16 := by omega
    interval_cases (n % 16) <;> rfl
  have r2 : hexDigits.getD (n / 16) 0 % 256 = hexDigits.getD (n / 16) 0 := by
    have : n / 16 < 16 := by omega
    interval_cases (n / 16) <;> rfl
  simp only [s_printc, if_neg (Ne.symm hK), if_true, hlo, hhi]
  rw [toU8_natCast _ (by omega), toU8_natCast _ (by omega), d1, d2]
  by_cases c : (n : Int) ≥ 16
  · simp only [if_pos c, s_putc, r1, r2, List.append_assoc, List.singleton_append]
  · have z : n / 16 = 0 := by omega
    simp only [if_neg c, s_putc, r1, z, List.append_assoc, List.singleton_append]
    rfl

theorem hexDigits_range (d : Nat) (h : d < 16) :
    (48 ≤ hexDigits.getD d 0 ∧ hexDigits.getD d 0 ≤ 57) ∨
      (97 ≤ hexDigits.getD d 0 ∧ hexDigits.getD d 0 ≤ 102) := by
  interval_cases d <;> decide

/-! ## The format scanner: lemmas -/


theorem StrAt_head {fmt : List Nat} {i c : Nat} {rest : List Nat} (h : StrAt fmt i (c :: rest)) :
    fmt.getD i 0 = c := by
  simpa using h 0

theorem StrAt_tail {fmt : List Nat} {i c : Nat} {rest : List Nat} (h : StrAt fmt i (c :: rest)) :
    StrAt fmt (i + 1) rest := by
  intro j
  have := h (j + 1)
  simpa [Nat.add_assoc, Nat.add_comm 1 j] using this

theorem StrAt_nil {fmt : List Nat} {i : Nat} (h : StrAt fmt i []) : fmt.getD i 0 = 0 := by
  simpa using h 0

theorem StrAt_self (fmt : List Nat) : StrAt fmt 0 fmt := by
  intro j; simp

theorem CStr_head {c : Nat} {rest : List Nat} (h : CStr (c :: rest)) : c ≠ 0 ∧ c < 256 :=
  h c (List.mem_cons_self c rest)

theorem CStr_tail {c : Nat} {rest : List Nat} (h : CStr (c :: rest)) : CStr rest :=
  fun d hd => h d (List.mem_cons_of_mem c hd)

theorem s_printf_loop_succ (K : Ch559H) (fmt : List Nat) (n : Nat) (st : PfState) :
    s_printf_loop K fmt (n + 1) st =
      if fmt.getD st.i 0 = 0 then Outcome.done st
      else
        match s_printf_body K (fmt.getD st.i 0) st with
        | none => Outcome.undef st
        | some st1 => s_printf_loop K fmt n st1 := rfl

/-- One iteration at a character that is neither the terminator nor `%`, outside an
escape. -/
theorem s_printf_loop_literal (K : Ch559H) (fmt : List Nat) (n i c : Nat) (ap : List Arg)
    (out : List Nat) (hc : fmt.getD i 0 = c) (h0 : c ≠ 0) (h37 : c ≠ 37) :
    s_printf_loop K fmt (n + 1) { i := i, escape := false, ap := ap, out := out } =
      s_printf_loop K fmt n
        { i := (i + 1) % 256, escape := false, ap := ap,
          out := s_putc c (if c = 10 then s_putc 13 out else out) } := by
  rw [s_printf_loop_succ]
  dsimp only
  rw [hc]
  simp only [if_neg h0, s_printf_body, if_true, if_neg (Ne.symm h37), eq_comm (a := 10)]

/-- One iteration at a `%` outside an escape. -/
theorem s_printf_loop_percent (K : Ch559H) (fmt : List Nat) (n i : Nat) (ap : List Arg)
    (out : List Nat) (hc : fmt.getD i 0 = 37) :
    s_printf_loop K fmt (n + 1) { i := i, escape := false, ap := ap, out := out } =
      s_printf_loop K fmt n { i := (i + 1) % 256, escape := true, ap := ap, out := out } := by
  rw [s_printf_loop_succ]
  dsimp only
  rw [hc]
  simp [s_printf_body]

/-- One iteration inside an escape at a character that is no conversion. -/
theorem s_printf_loop_swallow (K : Ch559H) (fmt : List Nat) (n i c : Nat) (ap : List Arg)
    (out : List Nat) (hc : fmt.getD i 0 = c) (h0 : c ≠ 0) (hd : c ≠ 100) (hb : c ≠ 98)
    (hx : c ≠ 120) (hs : c ≠ 115) :
    s_printf_loop K fmt (n + 1) { i := i, escape := true, ap := ap, out := out } =
      s_printf_loop K fmt n { i := (i + 1) % 256, escape := false, ap := ap, out := out } := by
  rw [s_printf_loop_succ]
  dsimp only
  rw [hc]
  simp [s_printf_body, h0, hd, hb, hx, hs]


/-- One iteration inside an escape, whatever the character. -/
theorem s_printf_loop_escape (K : Ch559H) (fmt : List Nat) (n i c : Nat) (ap : List Arg)
    (out : List Nat) (hc : fmt.getD i 0 = c) (h0 : c ≠ 0) :
    s_printf_loop K fmt (n + 1) { i := i, escape := true, ap := ap, out := out } =
      match s_printf_body K c { i := i, escape := true, ap := ap, out := out } with
      | none => Outcome.undef { i := i, escape := true, ap := ap, out := out }
      | some st1 => s_printf_loop K fmt n st1 := by
  rw [s_printf_loop_succ]
  dsimp only
  rw [hc, if_neg h0]

/-- The specification's reading of `%` followed by `d` and the loop body run on `d` inside
an escape agree. -/
theorem printf_spec_escape (K : Ch559H) (d : Nat) (rest : List Nat) (ap : List Arg)
    (out : List Nat) (j : Nat) :
    printf_spec K (37 :: d :: rest) ap out =
      match s_printf_body K d { i := j, escape := true, ap := ap, out := out } with
      | none => none
      | some st1 => printf_spec K rest st1.ap st1.out := by
  simp only [printf_spec, s_printf_body, if_true]
  by_cases e1 : d = 100
  · rcases ap with _ | ⟨a, ap1⟩
    · simp [e1]
    · cases a <;> simp [e1]
  by_cases e2 : d = 98
  · rcases ap with _ | ⟨a, ap1⟩
    · simp [e2]
    · cases a <;> simp [e2]
  by_cases e3 : d = 120
  · rcases ap with _ | ⟨a, ap1⟩
    · simp [e3]
    · cases a <;> simp [e3]
  by_cases e4 : d = 115
  · rcases ap with _ | ⟨a, ap1⟩
    · simp [e4]
    · cases a <;> simp [e4]
  simp [e1, e2, e3, e4]

/-- After the loop body ran inside an escape, the index has advanced by one and the escape
is over. -/
theorem s_printf_body_escape_state (K : Ch559H) (d j : Nat) (ap : List Arg) (out : List Nat)
    (st1 : PfState)
    (h : s_printf_body K d { i := j, escape := true, ap := ap, out := out } = some st1) :
    st1.i = (j + 1) % 256 ∧ st1.escape = false := by
  simp only [s_printf_body] at h
  by_cases e1 : d = 100
  · rcases ap with _ | ⟨a, ap1⟩
    · simp [e1] at h
    · cases a <;> simp [e1] at h
      subst h; exact ⟨rfl, rfl⟩
  by_cases e2 : d = 98
  · rcases ap with _ | ⟨a, ap1⟩
    · simp [e2] at h
    · cases a <;> simp [e2] at h
      subst h; exact ⟨rfl, rfl⟩
  by_cases e3 : d = 120
  · rcases ap with _ | ⟨a, ap1⟩
    · simp [e3] at h
    · cases a <;> simp [e3] at h
      subst h; exact ⟨rfl, rfl⟩
  by_cases e4 : d = 115
  · rcases ap with _ | ⟨a, ap1⟩
    · simp [e4] at h
    · cases a <;> simp [e4] at h
      subst h; exact ⟨rfl, rfl⟩
  simp [e1, e2, e3, e4] at h
  subst h; exact ⟨rfl, rfl⟩

/-- The loop and the specification agree on every string `suf` stored from index `i` on, as
long as the string ends at an index of at most 255: started at `i` outside an escape with
more iterations allowed than `suf` has characters, the loop ends at the terminator with the
arguments and output `printf_spec` gives, and runs into an undefined `va_arg` exactly when
`printf_spec` gives nothing. -/
theorem s_printf_loop_spec (K : Ch559H) (fmt : List Nat) :
    ∀ (m : Nat) (suf : List Nat), suf.length = m → ∀ (i : Nat) (ap : List Arg) (out : List Nat)
      (k : Nat), CStr suf → i + suf.length ≤ 255 → StrAt fmt i suf →
      (∀ r, printf_spec K suf ap out = some r →
        ∃ e, s_printf_loop K fmt (suf.length + 1 + k)
            { i := i, escape := false, ap := ap, out := out } =
          Outcome.done { i := i + suf.length, escape := e, ap := r.1, out := r.2 }) ∧
      (printf_spec K suf ap out = none →
        ∃ st, s_printf_loop K fmt (suf.length + 1 + k)
            { i := i, escape := false, ap := ap, out := out } = Outcome.undef st) := by
  intro m
  induction m using Nat.strong_induction_on with
  | _ m ih =>
    intro suf hm i ap out k hC hlen hAt
    match suf, hm, hC, hlen, hAt with
    | [], _, _, _, hAt =>
      have h0 := StrAt_nil hAt
      refine ⟨?_, ?_⟩
      · intro r hr
        simp only [printf_spec, Option.some.injEq] at hr
        subst hr
        refine ⟨false, ?_⟩
        simp only [List.length_nil, Nat.zero_add, Nat.add_zero]
        rw [Nat.add_comm, s_printf_loop_succ]
        dsimp only
        rw [if_pos h0]
      · intro hr
        simp [printf_spec] at hr
    | c :: rest, hm, hC, hlen, hAt =>
      have hc := StrAt_head hAt
      obtain ⟨c0, c256⟩ := CStr_head hC
      have hCr := (CStr_tail hC)
      have hAr := StrAt_tail hAt
      simp only [List.length_cons] at hlen hm ⊢
      have hi1 : (i + 1) % 256 = i + 1 := Nat.mod_eq_of_lt (by omega)
      have fuel1 : rest.length + 1 + 1 + k = (rest.length + 1 + k) + 1 := by omega
      by_cases h37 : c = 37
      · subst h37
        rw [fuel1, s_printf_loop_percent K fmt _ i ap out hc, hi1]
        match rest, hm, hCr, hlen, hAr with
        | [], _, _, _, hAr =>
          have h0 := StrAt_nil hAr
          refine ⟨?_, ?_⟩
          · intro r hr
            simp only [printf_spec, if_true, Option.some.injEq] at hr
            subst hr
            refine ⟨true, ?_⟩
            simp only [List.length_nil, Nat.zero_add]
            rw [Nat.add_comm 1 k, s_printf_loop_succ]
            dsimp only
            rw [if_pos h0]
          · intro hr
            simp [printf_spec] at hr
        | d :: rest1, hm, hCr, hlen, hAr =>
          have hd := StrAt_head hAr
          obtain ⟨d0, d256⟩ := CStr_head hCr
          simp only [List.length_cons] at hlen hm ⊢
          have hi2 : (i + 1 + 1) % 256 = i + 1 + 1 := Nat.mod_eq_of_lt (by omega)
          have fuel2 : rest1.length + 1 + 1 + k = (rest1.length + 1 + k) + 1 := by omega
          have hidx : i + 1 + 1 + rest1.length = i + (rest1.length + 1 + 1) := by omega
          rw [fuel2, s_printf_loop_escape K fmt _ (i + 1) d ap out hd d0,
            printf_spec_escape K d rest1 ap out (i + 1)]
          cases hb : s_printf_body K d { i := i + 1, escape := true, ap := ap, out := out } with
          | none =>
            exact ⟨fun r hr => by simp at hr, fun _ => ⟨_, rfl⟩⟩
          | some st1 =>
            obtain ⟨s1, s2⟩ := s_printf_body_escape_state K d (i + 1) ap out st1 hb
            have IH := ih rest1.length (by omega) rest1 rfl (i + 1 + 1) st1.ap st1.out k
              (CStr_tail hCr) (by omega) (StrAt_tail hAr)
            rw [hidx] at IH
            have est : st1 = { i := i + 1 + 1, escape := false, ap := st1.ap, out := st1.out } := by
              rw [hi2] at s1
              cases st1
              simp only [PfState.mk.injEq, and_true] at s1 s2 ⊢
              exact ⟨s1, s2⟩
            dsimp only
            rw [est]
            exact IH
      · rw [fuel1, s_printf_loop_literal K fmt _ i c ap out hc c0 h37, hi1]
        have IH := ih rest.length (by omega) rest rfl (i + 1) ap
          (s_putc c (if c = 10 then s_putc 13 out else out)) k hCr (by omega) hAr
        have hidx : i + 1 + rest.length = i + (rest.length + 1) := by omega
        rw [hidx] at IH
        have e : printf_spec K (c :: rest) ap out =
            printf_spec K rest ap (s_putc c (if c = 10 then s_putc 13 out else out)) := by
          by_cases h10 : c = 10
          · subst h10; cases rest <;> simp [printf_spec, s_putc]
          · cases rest <;> simp [printf_spec, h37, h10, s_putc, Nat.mod_eq_of_lt c256]
        rw [e]
        exact IH



/-- A run of characters without `%`, started outside an escape at an index from which the
8-bit index does not wrap: each is copied, a newline after a carriage return. -/
theorem s_printf_loop_literals (K : Ch559H) (fmt : List Nat) :
    ∀ (suf : List Nat) (i : Nat) (ap : List Arg) (out : List Nat) (k : Nat),
      CStr suf → 37 ∉ suf → i + suf.length ≤ 255 →
      (∀ j, j < suf.length → fmt.getD (i + j) 0 = suf.getD j 0) →
      s_printf_loop K fmt (suf.length + k) { i := i, escape := false, ap := ap, out := out } =
        s_printf_loop K fmt k
          { i := i + suf.length, escape := false, ap := ap, out := out ++ suf.flatMap crlf } := by
  intro suf
  induction suf with
  | nil =>
    intro i ap out k _ _ _ _
    simp
  | cons c rest ih =>
    intro i ap out k hC hp hlen hAt
    obtain ⟨c0, c256⟩ := CStr_head hC
    have h37 : c ≠ 37 := fun h => hp (by simp [h])
    have hp1 : 37 ∉ rest := fun h => hp (List.mem_cons_of_mem c h)
    have hc : fmt.getD i 0 = c := by simpa using hAt 0 (by simp)
    simp only [List.length_cons] at hlen ⊢
    have hAr : ∀ j, j < rest.length → fmt.getD (i + 1 + j) 0 = rest.getD j 0 := by
      intro j hj
      have := hAt (j + 1) (by simp; omega)
      simpa [Nat.add_assoc, Nat.add_comm 1 j] using this
    have hi1 : (i + 1) % 256 = i + 1 := Nat.mod_eq_of_lt (by omega)
    have fuel1 : rest.length + 1 + k = (rest.length + k) + 1 := by omega
    have hidx : i + 1 + rest.length = i + (rest.length + 1) := by omega
    rw [fuel1, s_printf_loop_literal K fmt _ i c ap out hc c0 h37, hi1,
      ih (i + 1) ap _ k (CStr_tail hC) hp1 (by omega) hAr, hidx]
    congr 2
    by_cases h10 : c = 10
    · subst h10; simp [s_putc, crlf]
    · simp [h10, s_putc, crlf, Nat.mod_eq_of_lt c256]

/-- The loop body at a character that is no conversion: it succeeds, moves the index on by
one and reads no argument. -/
theorem s_printf_body_no_conversion (K : Ch559H) (c : Nat) (st : PfState) (hd : c ≠ 100)
    (hb : c ≠ 98) (hx : c ≠ 120) (hs : c ≠ 115) :
    ∃ st1, s_printf_body K c st = some st1 ∧ st1.i = (st.i + 1) % 256 ∧ st1.ap = st.ap := by
  unfold s_printf_body
  by_cases he : st.escape = false
  · by_cases h37 : 37 = c
    · simp [he, h37]
    · simp [he, h37]
  · simp [he, hd, hb, hx, hs]

/-- A format whose first 256 bytes hold neither a terminator nor a conversion character
keeps the loop running for ever, with every argument unread. -/
theorem s_printf_loop_never_done (K : Ch559H) (fmt : List Nat)
    (hf : ∀ i, i < 256 → fmt.getD i 0 ≠ 0 ∧ fmt.getD i 0 ≠ 100 ∧ fmt.getD i 0 ≠ 98 ∧
      fmt.getD i 0 ≠ 120 ∧ fmt.getD i 0 ≠ 115) :
    ∀ (fuel : Nat) (st : PfState), st.i < 256 →
      ∃ st1, s_printf_loop K fmt fuel st = Outcome.more st1 ∧ st1.ap = st.ap := by
  intro fuel
  induction fuel with
  | zero => intro st _; exact ⟨st, rfl, rfl⟩
  | succ n ih =>
    intro st hst
    obtain ⟨h0, hd, hb, hx, hs⟩ := hf st.i hst
    obtain ⟨st1, e1, e2, e3⟩ := s_printf_body_no_conversion K (fmt.getD st.i 0) st hd hb hx hs
    rw [s_printf_loop_succ, if_neg h0, e1]
    obtain ⟨st2, f1, f2⟩ := ih st1 (by rw [e2]; exact Nat.mod_lt _ (by decide))
    exact ⟨st2, f1, by rw [f2, e3]⟩

/-! ## GPIO: lemmas -/

theorem mask_of_bit (bit : Nat) (h : bit ≤ 7) : (1 <<< bit) % 256 = 2 ^ bit := by
  interval_cases bit <;> rfl

theorem not8_of_byte (m : Nat) (h : m < 256) : not8 m = 255 - m := by
  unfold not8 toU8; omega

theorem not8_not8 (m : Nat) (h : m < 256) : not8 (not8 m) = m := by
  rw [not8_of_byte m h, not8_of_byte _ (by omega)]; omega

theorem two_pow_lt_256 (bit : Nat) (h : bit ≤ 7) : 2 ^ bit < 256 := by
  interval_cases bit <;> decide

theorem testBit_or_mask (r bit j : Nat) :
    (r ||| 2 ^ bit).testBit j = (r.testBit j || decide (bit = j)) := by
  rw [Nat.testBit_or, Nat.testBit_two_pow]

theorem testBit_and_not_mask (r bit j : Nat) (hb : bit ≤ 7) (hj : j < 8) :
    (r &&& (255 - 2 ^ bit)).testBit j = (r.testBit j && !decide (bit = j)) := by
  have e : 255 - 2 ^ bit = 255 ^^^ 2 ^ bit := by interval_cases bit <;> rfl
  have f : Nat.testBit 255 j = true := by
    have := Nat.testBit_two_pow_sub_one 8 j
    simpa [hj] using this
  rw [e, Nat.testBit_and, Nat.testBit_xor, Nat.testBit_two_pow, f]
  simp

/-- The pull-up and direction register of a valid port after `pinMode`. -/
theorem pinMode_pu_dir (K : Ch559H) (port bit mode : Nat) (hp : port ≤ 4) (hb : bit ≤ 7)
    (s : Regs) :
    (pinMode K port bit mode s).pu port =
        (if mode = K.INPUT_PULLUP then s.pu port ||| 2 ^ bit
          else s.pu port &&& (255 - 2 ^ bit)) ∧
      (pinMode K port bit mode s).dir port =
        (if mode = K.OUTPUT then s.dir port ||| 2 ^ bit else s.dir port &&& (255 - 2 ^ bit)) := by
  have hm := mask_of_bit bit hb
  have hlt := two_pow_lt_256 bit hb
  have hn := not8_of_byte (2 ^ bit) hlt
  have hnn := not8_not8 (2 ^ bit) hlt
  have hn2 : not8 (255 - 2 ^ bit) = 2 ^ bit := by rw [← hn]; exact hnn
  simp only [pinMode, hm, hn, hn2, ite_self]
  interval_cases port <;>
    simp only [pinMode_pu_set, pinMode_pu_clear, pinMode_dir_set, pinMode_dir_clear, Regs.pu,
      Regs.dir] <;>
    split_ifs <;> exact ⟨rfl, rfl⟩


theorem pinMode_pu_set_data (port mask : Nat) (s : Regs) (q : Nat) :
    (pinMode_pu_set port mask s).data q = s.data q := by
  unfold pinMode_pu_set; split <;> rfl

theorem pinMode_pu_clear_data (port mask : Nat) (s : Regs) (q : Nat) :
    (pinMode_pu_clear port mask s).data q = s.data q := by
  unfold pinMode_pu_clear; split <;> rfl

theorem pinMode_dir_set_data (port mask : Nat) (s : Regs) (q : Nat) :
    (pinMode_dir_set port mask s).data q = s.data q := by
  unfold pinMode_dir_set; split <;> rfl

theorem pinMode_dir_clear_data (port mask : Nat) (s : Regs) (q : Nat) :
    (pinMode_dir_clear port mask s).data q = s.data q := by
  unfold pinMode_dir_clear; split <;> rfl

theorem pinMode_data (K : Ch559H) (port bit mode : Nat) (s : Regs) (q : Nat) :
    (pinMode K port bit mode s).data q = s.data q := by
  unfold pinMode
  dsimp only
  split_ifs <;>
    simp only [pinMode_pu_set_data, pinMode_pu_clear_data, pinMode_dir_set_data,
      pinMode_dir_clear_data]

theorem digitalReadPort_data (port : Nat) (s : Regs) (q : Nat) :
    (digitalReadPort port s).2.data q = s.data q := by
  unfold digitalReadPort; split <;> rfl

theorem digitalReadPort_fst (port : Nat) (s : Regs) :
    (digitalReadPort port s).1 = s.data port % 256 := by
  unfold digitalReadPort Regs.data; split <;> rfl

theorem digitalReadPort_valid (port : Nat) (hp : port ≤ 4) (s : Regs) :
    digitalReadPort port s = (s.data port % 256, s) := by
  interval_cases port <;> rfl

/-- On a valid port and pin `digitalRead` returns the level of the data bit and leaves the
state alone. -/
theorem digitalRead_valid (K : Ch559H) (port pin : Nat) (hp : port ≤ 4) (hb : pin ≤ 7)
    (s : Regs) :
    digitalRead K port pin s =
      ((if (s.data port).testBit pin = true then K.HIGH else K.LOW) % 256, s) := by
  unfold digitalRead
  rw [digitalReadPort_valid port hp s]
  dsimp only
  have hw : wrap16 ((1 <<< pin : Nat) : Int) = ((2 ^ pin : Nat) : Int) := by
    rw [Nat.one_shiftLeft]
    have := two_pow_lt_256 pin hb
    generalize 2 ^ pin = m at this ⊢
    apply wrap16_of_range <;> omega
  have ht : (s.data port % 256).testBit pin = (s.data port).testBit pin := by
    have := Nat.testBit_mod_two_pow (s.data port) 8 pin
    simpa [show pin < 8 by omega] using this
  have hi := and16_two_pow_ne_zero (s.data port % 256) pin (by omega) (by omega)
  rw [hw]
  simp only [hi, ht]

/-- On a writable port `digitalWrite` replaces the data register of the port and nothing
else. -/
theorem digitalWrite_valid (K : Ch559H) (port bit value : Nat) (hp : port ≤ 3) (hb : bit ≤ 7)
    (s : Regs) :
    digitalWrite K port bit value s =
      s.setData port
        (if value = K.HIGH then s.data port ||| 2 ^ bit else s.data port &&& (255 - 2 ^ bit)) := by
  have hm := mask_of_bit bit hb
  have hn := not8_of_byte (2 ^ bit) (two_pow_lt_256 bit hb)
  simp only [digitalWrite, hm, hn]
  interval_cases port <;>
    simp only [digitalWrite_set, digitalWrite_clear, Regs.setData, Regs.data] <;>
    split_ifs <;> rfl

theorem setData_data (s : Regs) (port v : Nat) (hp : port ≤ 4) :
    (s.setData port v).data port = v := by
  interval_cases port <;> rfl


theorem pinMode_pu_set_invalid (port mask : Nat) (s : Regs) (hp : 4 < port) :
    pinMode_pu_set port mask s = { s with out := s_println strNA s.out } := by
  unfold pinMode_pu_set; split <;> first | omega | rfl

theorem pinMode_pu_clear_invalid (port mask : Nat) (s : Regs) (hp : 4 < port) :
    pinMode_pu_clear port mask s = { s with out := s_println strNA s.out } := by
  unfold pinMode_pu_clear; split <;> first | omega | rfl

theorem pinMode_dir_set_invalid (port mask : Nat) (s : Regs) (hp : 4 < port) :
    pinMode_dir_set port mask s = { s with out := s_println strNA s.out } := by
  unfold pinMode_dir_set; split <;> first | omega | rfl

theorem pinMode_dir_clear_invalid (port mask : Nat) (s : Regs) (hp : 4 < port) :
    pinMode_dir_clear port mask s = { s with out := s_println strNA s.out } := by
  unfold pinMode_dir_clear; split <;> first | omega | rfl

theorem digitalWrite_set_invalid (port mask : Nat) (s : Regs) (hp : 3 < port) :
    digitalWrite_set port mask s = { s with out := s_println strNA s.out } := by
  unfold digitalWrite_set; split <;> first | omega | rfl

theorem digitalWrite_clear_invalid (port mask : Nat) (s : Regs) (hp : 3 < port) :
    digitalWrite_clear port mask s = { s with out := s_println strNA s.out } := by
  unfold digitalWrite_clear; split <;> first | omega | rfl

theorem digitalReadPort_invalid (port : Nat) (s : Regs) (hp : 4 < port) :
    digitalReadPort port s = (0, { s with out := s_println strNA s.out }) := by
  unfold digitalReadPort; split <;> first | omega | rfl

/-! ## Claims on `printf` -/

theorem flatMap_crlf_of_no_newline (l : List Nat) (h : 10 ∉ l) : l.flatMap crlf = l := by
  induction l with
  | nil => rfl
  | cons c rest ih =>
    have hc : c ≠ 10 := fun e => h (by simp [e])
    have hr : 10 ∉ rest := fun e => h (List.mem_cons_of_mem c e)
    simp [List.flatMap_cons, crlf, hc, ih hr]

theorem getD_replicate_append_left (n a : Nat) (l : List Nat) (i : Nat) (h : i < n) :
    (List.replicate n a ++ l).getD i 0 = a := by
  simp [List.getD_eq_getElem?_getD, List.getElem?_append_left, List.getElem?_replicate, h]

theorem getD_replicate_append_right (n a : Nat) (l : List Nat) (j : Nat) :
    (List.replicate n a ++ l).getD (n + j) 0 = l.getD j 0 := by
  simp [List.getD_eq_getElem?_getD, List.getElem?_append_right]

theorem s_printc_ten (K : Ch559H) (hK : K.stylesDistinct) (out : List Nat) :
    s_printc K 10 K.DEC out = out ++ [49, 48] ∧ s_printc K 10 K.HEX out = out ++ [48, 97] ∧
      s_printc K 10 K.BIN out = out ++ [48, 48, 48, 48, 49, 48, 49, 48] := by
  refine ⟨?_, ?_, ?_⟩
  · have h := s_printc_dec_natCast K hK 10 (by decide) out
    rw [show decText 10 = [49, 48] by decide] at h
    exact_mod_cast h
  · have h := s_printc_hex_natCast K hK.1 10 (by decide) out
    exact_mod_cast h
  · simp only [s_printc, if_true, s_printc_bin_eq]
    rfl

/-- C1, for formats of at most 255 characters: `printf` produces what `printf_spec` gives,
that is, literal characters are copied, each of `%d`, `%x`, `%b` takes the next integer
argument and emits at that place what `printc` emits for it in the style DEC, HEX, BIN, and
`%s` emits the characters of the next string argument; a conversion without an argument of
its kind is undefined.  In particular `printf("%d-%x-%b", 10, 10, 10)` emits
`10-0a-00001010`. -/
theorem printf_conversions (K : Ch559H) (hK : K.stylesDistinct) (fmt : List Nat)
    (args : List Arg) (out : List Nat) (hC : CStr fmt) (hlen : fmt.length ≤ 255) (fuel : Nat)
    (hfuel : fmt.length < fuel) :
    (∀ ap1 out1, printf_spec K fmt args out = some (ap1, out1) →
        ∃ st, s_printf K fuel fmt args out = Outcome.done st ∧ st.i = fmt.length ∧
          st.ap = ap1 ∧ st.out = out1) ∧
      (printf_spec K fmt args out = none →
        ∃ st, s_printf K fuel fmt args out = Outcome.undef st) ∧
      (9 ≤ fuel →
        ∃ st, s_printf K fuel [37, 100, 45, 37, 120, 45, 37, 98]
            [Arg.int 10, Arg.int 10, Arg.int 10] [] = Outcome.done st ∧ st.ap = [] ∧
          st.out = [49, 48, 45, 48, 97, 45, 48, 48, 48, 48, 49, 48, 49, 48]) := by
  have main : ∀ (f : List Nat) (a : List Arg) (o : List Nat), CStr f → f.length ≤ 255 →
      f.length < fuel →
      (∀ ap1 out1, printf_spec K f a o = some (ap1, out1) →
        ∃ st, s_printf K fuel f a o = Outcome.done st ∧ st.i = f.length ∧
          st.ap = ap1 ∧ st.out = out1) ∧
      (printf_spec K f a o = none → ∃ st, s_printf K fuel f a o = Outcome.undef st) := by
    intro f a o hf hl hfu
    obtain ⟨k, hk⟩ : ∃ k, fuel = f.length + 1 + k := ⟨fuel - f.length - 1, by omega⟩
    obtain ⟨p1, p2⟩ := s_printf_loop_spec K f f.length f rfl 0 a o k hf (by omega) (StrAt_self f)
    subst hk
    refine ⟨?_, p2⟩
    intro ap1 out1 hs
    obtain ⟨e, he⟩ := p1 (ap1, out1) hs
    exact ⟨_, he, by simp, rfl, rfl⟩
  obtain ⟨m1, m2⟩ := main fmt args out hC hlen hfuel
  refine ⟨m1, m2, ?_⟩
  intro h9
  obtain ⟨c1, _⟩ := main [37, 100, 45, 37, 120, 45, 37, 98]
    [Arg.int 10, Arg.int 10, Arg.int 10] [] (by decide) (by decide) (by simpa using h9)
  obtain ⟨st, h1, _, h3, h4⟩ := c1 [] [49, 48, 45, 48, 97, 45, 48, 48, 48, 48, 49, 48, 49, 48] (by
    simp [printf_spec, (s_printc_ten K hK _).1, (s_printc_ten K hK _).2.1,
      (s_printc_ten K hK _).2.2])
  exact ⟨st, h1, h3, h4⟩

/-- Instance of C1: `printf("%d-%x-%b", 10, 10, 10)` ends with the output `10-0a-00001010`
and no argument left. -/
theorem printf_conversions_witness :
    ∃ st, s_printf K0 9 [37, 100, 45, 37, 120, 45, 37, 98]
        [Arg.int 10, Arg.int 10, Arg.int 10] [] = Outcome.done st ∧ st.ap = [] ∧
      st.out = [49, 48, 45, 48, 97, 45, 48, 48, 48, 48, 49, 48, 49, 48] :=
  (printf_conversions K0 (by decide) [37, 100, 45, 37, 120, 45, 37, 98]
    [Arg.int 10, Arg.int 10, Arg.int 10] [] (by decide) (by decide) 9 (by decide)).2.2
    (by decide)

/-- Against C1 as stated: for the 257-character format made of 255 times `a` and then `%d`,
called with the argument 10, the 8-bit index wraps to 0 after the `%` at index 255; the run
never ends and the argument is never read, so nothing is emitted for `%d`. -/
theorem printf_conversions_counterexample :
    s_printf_diverges K0 (List.replicate 255 97 ++ [37, 100]) [Arg.int 10] := by
  intro fuel
  refine s_printf_loop_never_done K0 _ ?_ fuel _ (by decide)
  intro i hi
  by_cases h : i < 255
  · rw [getD_replicate_append_left 255 97 _ i h]; decide
  · have e : i = 255 + 0 := by omega
    rw [e, getD_replicate_append_right 255 97 _ 0]; decide

/-- C2, for formats of at most 255 characters: a format without `%` leaves the arguments
untouched and emits the format with every newline written as carriage return and newline,
everything else unchanged and in order. -/
theorem printf_plain_text (K : Ch559H) (fmt : List Nat) (args : List Arg) (out : List Nat)
    (hC : CStr fmt) (hp : 37 ∉ fmt) (hlen : fmt.length ≤ 255) (fuel : Nat)
    (hfuel : fmt.length < fuel) :
    s_printf K fuel fmt args out =
      Outcome.done { i := fmt.length, escape := false, ap := args,
                     out := out ++ fmt.flatMap crlf } := by
  obtain ⟨k, hk⟩ : ∃ k, fuel = fmt.length + (k + 1) := ⟨fuel - fmt.length - 1, by omega⟩
  subst hk
  unfold s_printf
  rw [s_printf_loop_literals K fmt fmt 0 args out (k + 1) hC hp (by omega) (by intro j _; simp),
    s_printf_loop_succ]
  have h0 : fmt.getD fmt.length 0 = 0 := by simp
  simp only [Nat.zero_add]
  rw [if_pos h0]

/-- Instance of C2: `printf("a\nb")` emits `a`, carriage return, newline, `b`. -/
theorem printf_plain_text_witness :
    s_printf K0 4 [97, 10, 98] [] [] =
      Outcome.done { i := 3, escape := false, ap := [], out := [97, 13, 10, 98] } :=
  printf_plain_text K0 [97, 10, 98] [] [] (by decide) (by decide) (by decide) 4 (by decide)

/-- Against C2 as stated: for the format made of 256 times `a`, without any `%`, the 8-bit
index wraps to 0 before the terminator at index 256 is read, and the run never ends. -/
theorem printf_plain_text_counterexample :
    s_printf_diverges K0 (List.replicate 256 97) [] := by
  intro fuel
  refine s_printf_loop_never_done K0 _ ?_ fuel _ (by decide)
  intro i hi
  have e := getD_replicate_append_left 256 97 [] i hi
  rw [List.append_nil] at e
  rw [e]; decide

/-- C3, for a `%` at an index below 254 (so that it and the character after it lie within
the first 255 characters): when the character `c` after it is neither the terminator nor one
of `d`, `b`, `x`, `s`, the two iterations emit nothing and read no argument, and the scan goes
on outside an escape at the character after `c`.  The format `%%` emits nothing at all, and
a `%` followed by the terminator emits nothing. -/
theorem printf_unknown_conversion (K : Ch559H) (fmt : List Nat) (i c : Nat) (ap : List Arg)
    (out : List Nat) (n : Nat) (hi : i + 1 < 255) (hp : fmt.getD i 0 = 37)
    (hc : fmt.getD (i + 1) 0 = c) (h0 : c ≠ 0) (hd : c ≠ 100) (hb : c ≠ 98) (hx : c ≠ 120)
    (hs : c ≠ 115) :
    s_printf_loop K fmt (n + 2) { i := i, escape := false, ap := ap, out := out } =
        s_printf_loop K fmt n { i := i + 2, escape := false, ap := ap, out := out } ∧
      s_printf K (n + 3) [37, 37] ap out =
        Outcome.done { i := 2, escape := false, ap := ap, out := out } ∧
      (∀ (g : List Nat) (j : Nat), j < 255 → g.getD j 0 = 37 → g.getD (j + 1) 0 = 0 →
        s_printf_loop K g (n + 2) { i := j, escape := false, ap := ap, out := out } =
          Outcome.done { i := j + 1, escape := true, ap := ap, out := out }) := by
  refine ⟨?_, ?_, ?_⟩
  · rw [s_printf_loop_percent K fmt (n + 1) i ap out hp, Nat.mod_eq_of_lt (by omega),
      s_printf_loop_swallow K fmt n (i + 1) c ap out hc h0 hd hb hx hs,
      Nat.mod_eq_of_lt (by omega)]
  · unfold s_printf
    rw [s_printf_loop_percent K _ (n + 2) 0 ap out (by rfl),
      s_printf_loop_swallow K _ (n + 1) 1 37 ap out (by rfl) (by decide) (by decide) (by decide)
        (by decide) (by decide),
      s_printf_loop_succ]
    rfl
  · intro g j hj h37 hz
    rw [s_printf_loop_percent K g (n + 1) j ap out h37, Nat.mod_eq_of_lt (by omega),
      s_printf_loop_succ]
    dsimp only
    rw [if_pos hz]

/-- Instance of C3: in `a%qb` the pair `%q` is dropped; from the `%` at index 1 the run
ends with the output `ab`. -/
theorem printf_unknown_conversion_witness :
    s_printf_loop K0 [97, 37, 113, 98] 5 { i := 1, escape := false, ap := [], out := [97] } =
      Outcome.done { i := 4, escape := false, ap := [], out := [97, 98] } :=
  (printf_unknown_conversion K0 [97, 37, 113, 98] 1 113 [] [97] 3 (by decide) (by decide)
    (by decide) (by decide) (by decide) (by decide) (by decide) (by decide)).1.trans (by decide)

/-- The run of `printf` on `d`, `m` times `a`, `%%` with `m + 1 = 255` and the argument
10: after 255 iterations the scan is at the first `%`, outside an escape; two iterations
later the argument has been read and `10` emitted. -/
theorem s_printf_wrap_example (K : Ch559H) (hK : K.stylesDistinct) (m : Nat)
    (hm : m + 1 = 255) :
    s_printf K 255 (100 :: List.replicate m 97 ++ [37, 37]) [Arg.int 10] [] =
        Outcome.more { i := 255, escape := false, ap := [Arg.int 10],
                       out := 100 :: List.replicate m 97 } ∧
      s_printf K 257 (100 :: List.replicate m 97 ++ [37, 37]) [Arg.int 10] [] =
        Outcome.more { i := 1, escape := false, ap := [],
                       out := 100 :: List.replicate m 97 ++ [49, 48] } := by
  have hC : CStr (100 :: List.replicate m 97) := by
    intro c hc
    simp only [List.mem_cons, List.mem_replicate] at hc
    rcases hc with rfl | ⟨_, rfl⟩ <;> decide
  have h37 : 37 ∉ 100 :: List.replicate m 97 := by
    intro hc
    simp only [List.mem_cons, List.mem_replicate] at hc
    rcases hc with h | ⟨_, h⟩ <;> exact absurd h (by decide)
  have h10 : 10 ∉ 100 :: List.replicate m 97 := by
    intro hc
    simp only [List.mem_cons, List.mem_replicate] at hc
    rcases hc with h | ⟨_, h⟩ <;> exact absurd h (by decide)
  have hl : (100 :: List.replicate m 97).length = 255 := by
    rw [List.length_cons, List.length_replicate, hm]
  have hseg : ∀ j, j < (100 :: List.replicate m 97).length →
      (100 :: List.replicate m 97 ++ [37, 37]).getD (0 + j) 0 =
        (100 :: List.replicate m 97).getD j 0 := by
    intro j hj
    rw [Nat.zero_add, List.getD_eq_getElem?_getD, List.getD_eq_getElem?_getD,
      List.getElem?_append_left hj]
  have run : ∀ k, s_printf_loop K (100 :: List.replicate m 97 ++ [37, 37]) (255 + k)
      { i := 0, escape := false, ap := [Arg.int 10], out := [] } =
      s_printf_loop K (100 :: List.replicate m 97 ++ [37, 37]) k
        { i := 255, escape := false, ap := [Arg.int 10],
          out := 100 :: List.replicate m 97 } := by
    intro k
    have h := s_printf_loop_literals K (100 :: List.replicate m 97 ++ [37, 37])
      (100 :: List.replicate m 97) 0 [Arg.int 10] [] k hC h37 (by rw [hl]) hseg
    rw [hl, flatMap_crlf_of_no_newline _ h10] at h
    simpa using h
  have a255 : (100 :: List.replicate m 97 ++ [37, 37]).getD 255 0 = 37 := by
    have := getD_replicate_append_right m 97 [37, 37] 0
    rw [← hm]
    simpa [List.getD_eq_getElem?_getD] using this
  have a0 : (100 :: List.replicate m 97 ++ [37, 37]).getD 0 0 = 100 := rfl
  refine ⟨run 0, ?_⟩
  unfold s_printf
  rw [run 2, s_printf_loop_percent K _ 1 255 _ _ a255,
    s_printf_loop_escape K _ 0 0 100 _ _ a0 (by decide)]
  simp only [s_printf_body, (s_printc_ten K hK _).1]
  rfl

/-- Against C3 as stated: in the 257-character format `d`, 254 times `a`, `%%`, called with
the argument 10, the first `%` is read at index 255 outside an escape; the 8-bit index then
wraps to 0, so the character examined inside the escape is the `d` at index 0 and not the
second `%`: the argument is read and `10` is emitted. -/
theorem printf_unknown_conversion_counterexample :
    s_printf K0 255 (100 :: List.replicate 254 97 ++ [37, 37]) [Arg.int 10] [] =
        Outcome.more { i := 255, escape := false, ap := [Arg.int 10],
                       out := 100 :: List.replicate 254 97 } ∧
      s_printf K0 257 (100 :: List.replicate 254 97 ++ [37, 37]) [Arg.int 10] [] =
        Outcome.more { i := 1, escape := false, ap := [],
                       out := 100 :: List.replicate 254 97 ++ [49, 48] } :=
  s_printf_wrap_example K0 (by decide) 254 rfl

/-! ## Claims on `printc` -/

/-- C4: for every value in [-128, 127] the output of `printc(value, DEC)` is a `-` exactly
when the value is negative, followed by the decimal digits of the magnitude with no leading
zero (the single digit `0` for zero); read back as a signed decimal, the text is the value. -/
theorem printc_dec_roundtrip (K : Ch559H) (hK : K.stylesDistinct) (v : Int) (hlo : -128 ≤ v)
    (hhi : v ≤ 127) (out : List Nat) :
    ∃ ds, s_printc K v K.DEC out = out ++ (if v < 0 then [45] else []) ++ ds ∧
      ds ≠ [] ∧ (∀ d ∈ ds, 48 ≤ d ∧ d ≤ 57) ∧ (ds.head? = some 48 → ds = [48]) ∧
      (v = 0 → ds = [48]) ∧ parseDigits ds = some v.natAbs ∧
      ((s_printc K v K.DEC []).head? = some 45 ↔ v < 0) ∧
      parseDec (s_printc K v K.DEC []) = some v := by
  by_cases hneg : v < 0
  · obtain ⟨n, hn⟩ : ∃ n : Nat, v = -(n : Int) := ⟨v.natAbs, by omega⟩
    subst hn
    have n0 : 0 < n := by omega
    have n1 : n < 1000 := by omega
    obtain ⟨a, b, c, d⟩ := decText_spec n n1
    refine ⟨decText n, ?_, a, b, c, ?_, ?_, ?_, ?_⟩
    · rw [s_printc_dec_neg K hK n n0 n1, if_pos hneg]; simp
    · intro h; omega
    · simpa using d
    · rw [s_printc_dec_neg K hK n n0 n1]; simpa using hneg
    · rw [s_printc_dec_neg K hK n n0 n1]; simp [parseDec, d]
  · obtain ⟨n, hn⟩ : ∃ n : Nat, v = (n : Int) := ⟨v.natAbs, by omega⟩
    subst hn
    have n1 : n < 1000 := by omega
    obtain ⟨a, b, c, d⟩ := decText_spec n n1
    refine ⟨decText n, ?_, a, b, c, ?_, ?_, ?_, ?_⟩
    · rw [s_printc_dec_natCast K hK n n1, if_neg hneg]; simp
    · intro h
      have : n = 0 := by omega
      rw [this]; exact decText_zero
    · simpa using d
    · rw [s_printc_dec_natCast K hK n n1]
      simp only [List.nil_append]
      exact ⟨fun h => absurd h (decText_head_ne_minus n), fun h => absurd h hneg⟩
    · rw [s_printc_dec_natCast K hK n n1]
      simp [parseDec, decText_head_ne_minus n, d]

/-- Instance of C4 at the value -128: the text is `-128` and reads back as -128. -/
theorem printc_dec_roundtrip_witness :
    s_printc K0 (-128) K0.DEC [] = [45, 49, 50, 56] ∧
      parseDec (s_printc K0 (-128) K0.DEC []) = some (-128) := by
  obtain ⟨ds, _, _, _, _, _, _, _, h⟩ :=
    printc_dec_roundtrip K0 (by decide) (-128) (by decide) (by decide) []
  exact ⟨by decide, h⟩

/-- C5: for every value in [0, 255] the output of `printc(value, HEX)` is exactly two
characters, the hexadecimal digit of the high nibble `value / 16` and then that of the low
nibble `value mod 16`, each one of `0`..`9`, `a`..`f`; below 16 the first one is `0`. -/
theorem printc_hex_two_digits (K : Ch559H) (hK : K.BIN ≠ K.HEX) (v : Int) (h0 : 0 ≤ v)
    (h1 : v ≤ 255) (out : List Nat) :
    s_printc K v K.HEX out =
        out ++ [hexDigits.getD (v / 16).toNat 0, hexDigits.getD (v % 16).toNat 0] ∧
      (v / 16).toNat < 16 ∧ (v % 16).toNat < 16 ∧
      (∀ c ∈ [hexDigits.getD (v / 16).toNat 0, hexDigits.getD (v % 16).toNat 0],
        (48 ≤ c ∧ c ≤ 57) ∨ (97 ≤ c ∧ c ≤ 102)) ∧
      (v < 16 → hexDigits.getD (v / 16).toNat 0 = 48) := by
  obtain ⟨n, rfl⟩ := Int.eq_ofNat_of_zero_le h0
  have hn : n < 256 := by omega
  have e1 : ((n : Int) / 16).toNat = n / 16 := by omega
  have e2 : ((n : Int) % 16).toNat = n % 16 := by omega
  have b1 : n / 16 < 16 := by omega
  have b2 : n % 16 < 16 := by omega
  rw [e1, e2]
  refine ⟨s_printc_hex_natCast K hK n hn out, b1, b2, ?_, ?_⟩
  · intro c hc
    simp only [List.mem_cons, List.mem_singleton, List.not_mem_nil, or_false] at hc
    rcases hc with rfl | rfl
    · exact hexDigits_range _ b1
    · exact hexDigits_range _ b2
  · intro h
    have : n / 16 = 0 := by omega
    rw [this]; rfl

/-- Instance of C5 at the value 10: the text is `0a`. -/
theorem printc_hex_two_digits_witness : s_printc K0 10 K0.HEX [] = [48, 97] := by
  have h := (printc_hex_two_digits K0 (by decide) 10 (by decide) (by decide) []).1
  rw [h]; decide

/-- C6: for every value in [0, 255] the output of `printc(value, BIN)` is exactly eight
characters, the one at position `k` (from 0) being `1` when bit `7 - k` of the value is set
and `0` otherwise: the binary expansion of the byte, most significant bit first. -/
theorem printc_bin_bits (K : Ch559H) (v : Int) (h0 : 0 ≤ v) (h1 : v ≤ 255) (out : List Nat) :
    s_printc K v K.BIN out =
      out ++ (List.range 8).map (fun k => if v.toNat.testBit (7 - k) then 49 else 48) := by
  obtain ⟨n, rfl⟩ := Int.eq_ofNat_of_zero_le h0
  have hn : n < 32768 := by omega
  have e := fun j (hj : j < 16) => and16_two_pow_ne_zero n j hn hj
  simp only [s_printc, if_true, s_printc_bin_eq]
  have e7 := e 7 (by decide)
  have e6 := e 6 (by decide)
  have e5 := e 5 (by decide)
  have e4 := e 4 (by decide)
  have e3 := e 3 (by decide)
  have e2 := e 2 (by decide)
  have e1 := e 1 (by decide)
  have e0 := e 0 (by decide)
  norm_num at e7 e6 e5 e4 e3 e2 e1 e0
  simp [List.range, List.range.loop, e7, e6, e5, e4, e3, e2, e1, e0]

/-- Instance of C6 at the value 10: the text is `00001010`. -/
theorem printc_bin_bits_witness :
    s_printc K0 10 K0.BIN [] = [48, 48, 48, 48, 49, 48, 49, 48] := by
  have h := printc_bin_bits K0 10 (by decide) (by decide) []
  rw [h]; decide

/-! ## Claims on the GPIO functions -/

/-- C7: for every port in 0..4 and bit in 0..7, `pinMode(port, bit, mode)` leaves the port's
pull-up register with the bit set exactly when `mode == INPUT_PULLUP` and its direction
register with the bit set exactly when `mode == OUTPUT`; every other bit of the two
registers keeps its value.  A set is an OR with the single-bit mask and a clear is an AND
with the complement of that mask, also for the direction after the pull-up was cleared. -/
theorem pinMode_sets_mode (K : Ch559H) (port bit mode : Nat) (hp : port ≤ 4) (hb : bit ≤ 7)
    (s : Regs) :
    (((pinMode K port bit mode s).pu port).testBit bit = true ↔ mode = K.INPUT_PULLUP) ∧
      (((pinMode K port bit mode s).dir port).testBit bit = true ↔ mode = K.OUTPUT) ∧
      (∀ j, j < 8 → j ≠ bit →
        ((pinMode K port bit mode s).pu port).testBit j = (s.pu port).testBit j ∧
        ((pinMode K port bit mode s).dir port).testBit j = (s.dir port).testBit j) ∧
      (pinMode K port bit mode s).pu port =
        (if mode = K.INPUT_PULLUP then s.pu port ||| 2 ^ bit
          else s.pu port &&& (255 - 2 ^ bit)) ∧
      (pinMode K port bit mode s).dir port =
        (if mode = K.OUTPUT then s.dir port ||| 2 ^ bit else s.dir port &&& (255 - 2 ^ bit)) := by
  obtain ⟨e1, e2⟩ := pinMode_pu_dir K port bit mode hp hb s
  refine ⟨?_, ?_, ?_, e1, e2⟩
  · rw [e1]
    by_cases h : mode = K.INPUT_PULLUP
    · simp [h, testBit_or_mask]
    · simp [h, testBit_and_not_mask _ bit bit hb (by omega)]
  · rw [e2]
    by_cases h : mode = K.OUTPUT
    · simp [h, testBit_or_mask]
    · simp [h, testBit_and_not_mask _ bit bit hb (by omega)]
  · intro j hj hne
    rw [e1, e2]
    have hne1 : ¬ bit = j := fun h => hne h.symm
    constructor
    · by_cases h : mode = K.INPUT_PULLUP
      · simp [h, testBit_or_mask, hne1]
      · simp [h, testBit_and_not_mask _ bit j hb hj, hne1]
    · by_cases h : mode = K.OUTPUT
      · simp [h, testBit_or_mask, hne1]
      · simp [h, testBit_and_not_mask _ bit j hb hj, hne1]

/-- Instance of C7: on port 2 with every register bit set, `pinMode(2, 3, INPUT)` clears
bit 3 of the pull-up and of the direction register and nothing else in them. -/
theorem pinMode_sets_mode_witness :
    (pinMode K0 2 3 K0.INPUT { Regs.zero with P2_PU := 255, P2_DIR := 255 }).P2_PU = 247 ∧
      (pinMode K0 2 3 K0.INPUT { Regs.zero with P2_PU := 255, P2_DIR := 255 }).P2_DIR = 247 := by
  obtain ⟨_, _, _, e1, e2⟩ := pinMode_sets_mode K0 2 3 K0.INPUT (by decide) (by decide)
    { Regs.zero with P2_PU := 255, P2_DIR := 255 }
  exact ⟨e1.trans (by decide), e2.trans (by decide)⟩

/-- C8: for every port in 0..3, bit in 0..7 and value HIGH or LOW, `digitalWrite(port, bit,
value)` leaves the bit of the port's data register set for HIGH and clear for LOW, keeps
the other seven bits of that register, changes no other register, and a `digitalRead(port,
bit)` that follows returns `value` (and changes nothing). -/
theorem digitalWrite_then_read (K : Ch559H) (hK : K.levelsOk) (port bit value : Nat)
    (hp : port ≤ 3) (hb : bit ≤ 7) (hv : value = K.HIGH ∨ value = K.LOW) (s : Regs) :
    (((digitalWrite K port bit value s).data port).testBit bit = true ↔ value = K.HIGH) ∧
      (∀ j, j < 8 → j ≠ bit →
        ((digitalWrite K port bit value s).data port).testBit j = (s.data port).testBit j) ∧
      digitalWrite K port bit value s =
        s.setData port ((digitalWrite K port bit value s).data port) ∧
      digitalRead K port bit (digitalWrite K port bit value s) =
        (value, digitalWrite K port bit value s) := by
  obtain ⟨hne, hH, hL⟩ := hK
  have e := digitalWrite_valid K port bit value hp hb s
  have d : (digitalWrite K port bit value s).data port =
      (if value = K.HIGH then s.data port ||| 2 ^ bit else s.data port &&& (255 - 2 ^ bit)) := by
    rw [e, setData_data _ _ _ (by omega)]
  have b1 : ((digitalWrite K port bit value s).data port).testBit bit = true ↔ value = K.HIGH := by
    rw [d]
    by_cases h : value = K.HIGH
    · simp [h, testBit_or_mask]
    · simp [h, testBit_and_not_mask _ bit bit hb (by omega)]
  refine ⟨b1, ?_, ?_, ?_⟩
  · intro j hj hjb
    have hne1 : ¬ bit = j := fun h => hjb h.symm
    rw [d]
    by_cases h : value = K.HIGH
    · simp [h, testBit_or_mask, hne1]
    · simp [h, testBit_and_not_mask _ bit j hb hj, hne1]
  · rw [d]; exact e
  · rw [digitalRead_valid K port bit (by omega) hb]
    rcases hv with h | h
    · have t := b1.mpr h
      rw [if_pos t, h, Nat.mod_eq_of_lt hH]
    · have t : ¬ ((digitalWrite K port bit value s).data port).testBit bit = true := by
        rw [b1, h]; exact fun c => hne c.symm
      rw [if_neg t, h, Nat.mod_eq_of_lt hL]

/-- Instance of C8: `digitalWrite(3, 3, HIGH)` on cleared registers sets P3 to 8 and the
read that follows returns HIGH. -/
theorem digitalWrite_then_read_witness :
    digitalRead K0 3 3 (digitalWrite K0 3 3 K0.HIGH Regs.zero) =
      (K0.HIGH, { Regs.zero with P3 := 8 }) := by
  have h := (digitalWrite_then_read K0 (by decide) 3 3 K0.HIGH (by decide) (by decide)
    (Or.inl rfl) Regs.zero).2.2.2
  rw [h]; decide

/-- C9 (bit isolation): `pinMode(port, bit, INPUT_PULLUP)` followed by `digitalRead(port,
bit)` changes no data register.  Hence after `digitalWrite(port, b, v)` the data register
and the result of `digitalRead(port, b)` are the same before and after that pair; for the
writable ports 0..3 and `v` HIGH or LOW the bit read back is `v`. -/
theorem pullup_read_bit_isolation (K : Ch559H) (port bit b v : Nat) (s : Regs) :
    (∀ t q, (afterPullupRead K port bit t).data q = t.data q) ∧
      (digitalRead K port b (afterPullupRead K port bit (digitalWrite K port b v s))).1 =
        (digitalRead K port b (digitalWrite K port b v s)).1 ∧
      (K.levelsOk → port ≤ 3 → b ≤ 7 → (v = K.HIGH ∨ v = K.LOW) →
        (digitalRead K port b (afterPullupRead K port bit (digitalWrite K port b v s))).1 = v ∧
        (((afterPullupRead K port bit (digitalWrite K port b v s)).data port).testBit b = true ↔
          v = K.HIGH)) := by
  have frame : ∀ t q, (afterPullupRead K port bit t).data q = t.data q := by
    intro t q
    unfold afterPullupRead digitalRead
    dsimp only
    rw [digitalReadPort_data, pinMode_data]
  have same : ∀ t, (digitalRead K port b (afterPullupRead K port bit t)).1 =
      (digitalRead K port b t).1 := by
    intro t
    unfold digitalRead
    dsimp only
    rw [digitalReadPort_fst, digitalReadPort_fst, frame t port]
  refine ⟨frame, same _, ?_⟩
  intro hK hp hb hv
  obtain ⟨hne, hH, hL⟩ := hK
  have e := digitalWrite_valid K port b v hp hb s
  have d : (digitalWrite K port b v s).data port =
      (if v = K.HIGH then s.data port ||| 2 ^ b else s.data port &&& (255 - 2 ^ b)) := by
    rw [e, setData_data _ _ _ (by omega)]
  have b1 : ((digitalWrite K port b v s).data port).testBit b = true ↔ v = K.HIGH := by
    rw [d]
    by_cases h : v = K.HIGH
    · simp [h, testBit_or_mask]
    · simp [h, testBit_and_not_mask _ b b hb (by omega)]
  refine ⟨?_, ?_⟩
  · rw [same, digitalRead_valid K port b (by omega) hb]
    dsimp only
    rcases hv with h | h
    · have t := b1.mpr h
      rw [if_pos t, h, Nat.mod_eq_of_lt hH]
    · have t : ¬ ((digitalWrite K port b v s).data port).testBit b = true := by
        rw [b1, h]; exact fun c => hne c.symm
      rw [if_neg t, h, Nat.mod_eq_of_lt hL]
  · rw [frame]; exact b1

/-- Instance of C9 on port 2: after `digitalWrite(2, 5, HIGH)`, `pinMode(2, 3,
INPUT_PULLUP)` and `digitalRead(2, 3)`, bit 5 still reads HIGH and P2 still holds 32. -/
theorem pullup_read_bit_isolation_witness :
    (digitalRead K0 2 5 (afterPullupRead K0 2 3 (digitalWrite K0 2 5 K0.HIGH Regs.zero))).1 =
        K0.HIGH ∧
      (afterPullupRead K0 2 3 (digitalWrite K0 2 5 K0.HIGH Regs.zero)).P2 = 32 := by
  obtain ⟨h1, _, h3⟩ := pullup_read_bit_isolation K0 2 3 5 K0.HIGH Regs.zero
  refine ⟨(h3 (by decide) (by decide) (by decide) (Or.inl rfl)).1, ?_⟩
  exact (h1 (digitalWrite K0 2 5 K0.HIGH Regs.zero) 2).trans (by decide)

/-- C10: a port above 4 leaves every data, direction and pull-up register as it was in
`pinMode`, `digitalWrite`, `digitalReadPort` and `digitalRead` (the state after the call
differs from the state before it in the serial output at most), and so does port 4 in
`digitalWrite`. -/
theorem invalid_port_registers_unchanged (K : Ch559H) (port bit mode value : Nat)
    (hp : 4 < port) (s : Regs) :
    { pinMode K port bit mode s with out := s.out } = s ∧
      { digitalWrite K port bit value s with out := s.out } = s ∧
      { (digitalReadPort port s).2 with out := s.out } = s ∧
      { (digitalRead K port bit s).2 with out := s.out } = s ∧
      { digitalWrite K 4 bit value s with out := s.out } = s := by
  refine ⟨?_, ?_, ?_, ?_, ?_⟩
  · simp only [pinMode, pinMode_pu_set_invalid _ _ _ hp, pinMode_pu_clear_invalid _ _ _ hp,
      pinMode_dir_set_invalid _ _ _ hp, pinMode_dir_clear_invalid _ _ _ hp, ite_self]
  · simp only [digitalWrite, digitalWrite_set_invalid _ _ _ (Nat.lt_of_succ_lt hp),
      digitalWrite_clear_invalid _ _ _ (Nat.lt_of_succ_lt hp), ite_self]
  · rw [digitalReadPort_invalid _ _ hp]
  · simp only [digitalRead, digitalReadPort_invalid _ _ hp]
  · simp only [digitalWrite, digitalWrite_set_invalid 4 _ _ (by decide),
      digitalWrite_clear_invalid 4 _ _ (by decide), ite_self]

/-- Instance of C10 at port 9: the registers are those of the state before the call. -/
theorem invalid_port_registers_unchanged_witness :
    { pinMode K0 9 3 K0.OUTPUT Regs.zero with out := [] } = Regs.zero ∧
      (pinMode K0 9 3 K0.OUTPUT Regs.zero).out = [78, 47, 65, 13, 10, 78, 47, 65, 13, 10] :=
  ⟨(invalid_port_registers_unchanged K0 9 3 K0.OUTPUT 0 (by decide) Regs.zero).1, by decide⟩

/-! ## Claims on the diagnostic line -/

theorem s_println_NA (out : List Nat) : s_println strNA out = out ++ [78, 47, 65, 13, 10] := by
  simp [s_println, strNA, s_print, s_putc]

theorem and16_zero_left (b : Int) : and16 0 b = 0 := by
  unfold and16
  simp [wrap16]

theorem digitalWrite_set_valid_out (port mask : Nat) (s : Regs) (hp : port ≤ 3) :
    (digitalWrite_set port mask s).out = s.out := by
  interval_cases port <;> rfl

theorem digitalWrite_clear_valid_out (port mask : Nat) (s : Regs) (hp : port ≤ 3) :
    (digitalWrite_clear port mask s).out = s.out := by
  interval_cases port <;> rfl

/-- C11, with the number of lines the code emits: for every port above 4 and every bit and
mode, one call `pinMode(port, bit, mode)` appends to the serial output the diagnostic line
`N/A`, carriage return, newline twice (once for the pull-up `switch` and once for the
direction `switch`) and nothing else. -/
theorem pinMode_invalid_port_output (K : Ch559H) (port bit mode : Nat) (hp : 4 < port)
    (s : Regs) :
    (pinMode K port bit mode s).out = s.out ++ [78, 47, 65, 13, 10, 78, 47, 65, 13, 10] := by
  simp only [pinMode, pinMode_pu_set_invalid _ _ _ hp, pinMode_pu_clear_invalid _ _ _ hp,
    pinMode_dir_set_invalid _ _ _ hp, pinMode_dir_clear_invalid _ _ _ hp, ite_self,
    s_println_NA]
  simp

/-- Instance of C11 (amended) at port 9. -/
theorem pinMode_invalid_port_output_witness :
    (pinMode K0 9 3 K0.INPUT Regs.zero).out = [78, 47, 65, 13, 10, 78, 47, 65, 13, 10] :=
  pinMode_invalid_port_output K0 9 3 K0.INPUT (by decide) Regs.zero

/-- Against C11 as stated: `pinMode(9, 3, OUTPUT)` does not emit exactly one line `N/A`,
carriage return, newline; it emits that line twice. -/
theorem pinMode_invalid_port_output_counterexample :
    (pinMode K0 9 3 K0.OUTPUT Regs.zero).out ≠ [78, 47, 65, 13, 10] ∧
      (pinMode K0 9 3 K0.OUTPUT Regs.zero).out = [78, 47, 65, 13, 10, 78, 47, 65, 13, 10] := by
  decide

/-- C12: `digitalWrite` on a port outside 0..3 (port 4 included) emits exactly the line
`N/A`, carriage return, newline; on a port above 4 `digitalReadPort` emits exactly that line
and returns 0, and `digitalRead` emits exactly that line and returns LOW; on the valid ports
(0..3 for `digitalWrite`, 0..4 for the two reads) nothing is emitted. -/
theorem invalid_port_single_line (K : Ch559H) (hL : K.LOW < 256) (port bit value pin : Nat)
    (s : Regs) :
    (3 < port → (digitalWrite K port bit value s).out = s.out ++ [78, 47, 65, 13, 10]) ∧
      (4 < port →
        digitalReadPort port s = (0, { s with out := s.out ++ [78, 47, 65, 13, 10] }) ∧
        digitalRead K port pin s =
          (K.LOW, { s with out := s.out ++ [78, 47, 65, 13, 10] })) ∧
      (port ≤ 3 → (digitalWrite K port bit value s).out = s.out) ∧
      (port ≤ 4 → (digitalReadPort port s).2.out = s.out ∧
        (digitalRead K port pin s).2.out = s.out) := by
  refine ⟨?_, ?_, ?_, ?_⟩
  · intro hp
    simp only [digitalWrite, digitalWrite_set_invalid _ _ _ hp,
      digitalWrite_clear_invalid _ _ _ hp, ite_self, s_println_NA]
  · intro hp
    have e := digitalReadPort_invalid port s hp
    rw [s_println_NA] at e
    refine ⟨e, ?_⟩
    unfold digitalRead
    rw [e]
    simp [and16_zero_left, Nat.mod_eq_of_lt hL]
  · intro hp
    unfold digitalWrite
    dsimp only
    split_ifs
    · exact digitalWrite_set_valid_out _ _ _ hp
    · exact digitalWrite_clear_valid_out _ _ _ hp
  · intro hp
    have e := digitalReadPort_valid port hp s
    refine ⟨by rw [e], ?_⟩
    unfold digitalRead
    rw [e]

/-- Instance of C12: `digitalWrite(4, 0, HIGH)` emits the one line, and `digitalRead(9, 2)`
emits it and returns LOW. -/
theorem invalid_port_single_line_witness :
    (digitalWrite K0 4 0 K0.HIGH Regs.zero).out = [78, 47, 65, 13, 10] ∧
      digitalRead K0 9 2 Regs.zero = (K0.LOW, { Regs.zero with out := [78, 47, 65, 13, 10] }) :=
  ⟨(invalid_port_single_line K0 (by decide) 4 0 K0.HIGH 2 Regs.zero).1 (by decide),
   ((invalid_port_single_line K0 (by decide) 9 0 K0.HIGH 2 Regs.zero).2.1 (by decide)).2⟩

/-! ## Claims on `printc` beyond the byte range -/

theorem and16_low_nibble (v : Int) : and16 v 15 = v % 16 := by
  unfold and16
  have h15 : ((15 : Int) % 65536).toNat = 15 := by decide
  have hm : (v % 65536).toNat &&& 15 = (v % 65536).toNat % 16 :=
    Nat.and_pow_two_sub_one_eq_mod _ 4
  rw [h15, hm]
  have hw : wrap16 (((v % 65536).toNat % 16 : Nat) : Int) = (((v % 65536).toNat % 16 : Nat) : Int) := by
    apply wrap16_of_range <;> omega
  rw [hw]
  omega

theorem decText_length (n : Nat) : 1 ≤ (decText n).length ∧ (decText n).length ≤ 3 := by
  unfold decText
  by_cases a : 100 ≤ n <;> by_cases b : 10 ≤ n <;> simp [a, b]

/-- C18: for every 16-bit value below 16, negative values included, `printc(val, HEX)` emits
`0` and then the lower-case hexadecimal digit of `val AND 0x0f`, which is the low nibble
`val mod 16` of the two's-complement value; so -1 is printed as `0f`, not as `ff`. -/
theorem printc_hex_below_16 (K : Ch559H) (hK : K.BIN ≠ K.HEX) (v : Int) (_hlo : -32768 ≤ v)
    (hhi : v < 16) (out : List Nat) :
    s_printc K v K.HEX out = out ++ [48, hexDigits.getD (and16 v 15).toNat 0] ∧
      and16 v 15 = v % 16 ∧ (and16 v 15).toNat < 16 ∧
      s_printc K (-1) K.HEX out = out ++ [48, 102] := by
  have main : ∀ w : Int, w < 16 →
      s_printc K w K.HEX out = out ++ [48, hexDigits.getD (and16 w 15).toNat 0] := by
    intro w hw
    have c : ¬ w ≥ 16 := by omega
    have e := and16_low_nibble w
    have b : (w % 16).toNat < 16 := by omega
    have t : toU8 (w % 16) = (w % 16).toNat := by unfold toU8; omega
    have r : hexDigits.getD (w % 16).toNat 0 % 256 = hexDigits.getD (w % 16).toNat 0 := by
      interval_cases (w % 16).toNat <;> rfl
    simp only [s_printc, if_neg (Ne.symm hK), if_true, if_neg c, e, t,
      U4ToHex_hexDigits _ b, s_putc, r, List.append_assoc, List.singleton_append]
  have e := and16_low_nibble v
  refine ⟨main v hhi, e, by rw [e]; omega, ?_⟩
  have h := main (-1) (by decide)
  rw [h, and16_low_nibble]
  rfl

/-- Instance of C18 at -1: the text is `0f`. -/
theorem printc_hex_below_16_witness : s_printc K0 (-1) K0.HEX [] = [48, 102] :=
  (printc_hex_below_16 K0 (by decide) (-1) (by decide) (by decide) []).2.2.2

/-- C19, with the bound stated for all magnitudes up to it: for every value in [-999, 999]
the output of `printc(val, DEC)` is the canonical decimal text of the value, a `-` exactly
when it is negative and then one to three digits without a leading zero, which reads back
as the value; so every emitted character is a decimal digit for all magnitudes up to 999,
and not for 1000, which is printed as `a00`. -/
theorem printc_dec_three_digits (K : Ch559H) (hK : K.stylesDistinct) (v : Int)
    (hlo : -999 ≤ v) (hhi : v ≤ 999) (out : List Nat) :
    (∃ ds, s_printc K v K.DEC out = out ++ (if v < 0 then [45] else []) ++ ds ∧
      1 ≤ ds.length ∧ ds.length ≤ 3 ∧ (∀ d ∈ ds, 48 ≤ d ∧ d ≤ 57) ∧
      (ds.head? = some 48 → ds = [48]) ∧ parseDigits ds = some v.natAbs ∧
      parseDec (s_printc K v K.DEC []) = some v) ∧
      s_printc K 1000 K.DEC out = out ++ [97, 48, 48] := by
  constructor
  · by_cases hneg : v < 0
    · obtain ⟨n, hn⟩ : ∃ n : Nat, v = -(n : Int) := ⟨v.natAbs, by omega⟩
      subst hn
      have n0 : 0 < n := by omega
      have n1 : n < 1000 := by omega
      obtain ⟨_, b, c, d⟩ := decText_spec n n1
      obtain ⟨l1, l3⟩ := decText_length n
      refine ⟨decText n, ?_, l1, l3, b, c, ?_, ?_⟩
      · rw [s_printc_dec_neg K hK n n0 n1, if_pos hneg]; simp
      · simpa using d
      · rw [s_printc_dec_neg K hK n n0 n1]; simp [parseDec, d]
    · obtain ⟨n, hn⟩ : ∃ n : Nat, v = (n : Int) := ⟨v.natAbs, by omega⟩
      subst hn
      have n1 : n < 1000 := by omega
      obtain ⟨_, b, c, d⟩ := decText_spec n n1
      obtain ⟨l1, l3⟩ := decText_length n
      refine ⟨decText n, ?_, l1, l3, b, c, ?_, ?_⟩
      · rw [s_printc_dec_natCast K hK n n1, if_neg hneg]; simp
      · simpa using d
      · rw [s_printc_dec_natCast K hK n n1]
        simp [parseDec, decText_head_ne_minus n, d]
  · obtain ⟨_, h2, h3⟩ := hK
    simp only [s_printc, if_neg (Ne.symm h2), if_neg (Ne.symm h3), if_true, s_putc]
    simp
    decide

/-- Instance of C19 at -999: the text is `-999` and reads back as -999. -/
theorem printc_dec_three_digits_witness :
    s_printc K0 (-999) K0.DEC [] = [45, 57, 57, 57] ∧
      parseDec (s_printc K0 (-999) K0.DEC []) = some (-999) := by
  obtain ⟨⟨ds, _, _, _, _, _, _, h⟩, _⟩ :=
    printc_dec_three_digits K0 (by decide) (-999) (by decide) (by decide) []
  exact ⟨by decide, h⟩

/-- Against C19 as stated: 999 is not the largest magnitude whose output consists of
decimal digits only; 25600 is printed as `000` (the hundreds count 256 is reduced to the
byte 0 when it is passed to `U4ToHex`). -/
theorem printc_dec_three_digits_counterexample :
    s_printc K0 25600 K0.DEC [] = [48, 48, 48] ∧
      (∀ d ∈ s_printc K0 25600 K0.DEC [], 48 ≤ d ∧ d ≤ 57) ∧ (999 : Int) < 25600 := by
  decide

/-! ## Claim on the loop index of `printf` -/

theorem s_printf_visits_succ (K : Ch559H) (fmt : List Nat) (n : Nat) (st : PfState) :
    s_printf_visits K fmt (n + 1) st =
      st.i :: (if fmt.getD st.i 0 = 0 then []
        else
          match s_printf_body K (fmt.getD st.i 0) st with
          | none => []
          | some st1 => s_printf_visits K fmt n st1) := rfl

/-- The indices examined on a string `suf` stored from index `i` on and ending at an index
of at most 255, when every conversion finds its argument: `i`, `i + 1`, ... up to the index
of the terminator, each once. -/
theorem s_printf_visits_spec (K : Ch559H) (fmt : List Nat) :
    ∀ (m : Nat) (suf : List Nat), suf.length = m → ∀ (i : Nat) (ap : List Arg) (out : List Nat)
      (k : Nat), CStr suf → i + suf.length ≤ 255 → StrAt fmt i suf →
      printf_spec K suf ap out ≠ none →
      s_printf_visits K fmt (suf.length + 1 + k)
          { i := i, escape := false, ap := ap, out := out } =
        List.range' i (suf.length + 1) := by
  intro m
  induction m using Nat.strong_induction_on with
  | _ m ih =>
    intro suf hm i ap out k hC hlen hAt hsp
    match suf, hm, hC, hlen, hAt, hsp with
    | [], _, _, _, hAt, _ =>
      have h0 := StrAt_nil hAt
      simp only [List.length_nil, Nat.zero_add]
      rw [Nat.add_comm, s_printf_visits_succ]
      dsimp only
      rw [if_pos h0]
      rfl
    | c :: rest, hm, hC, hlen, hAt, hsp =>
      have hc := StrAt_head hAt
      obtain ⟨c0, c256⟩ := CStr_head hC
      have hCr := CStr_tail hC
      have hAr := StrAt_tail hAt
      simp only [List.length_cons] at hlen hm ⊢
      have hi1 : (i + 1) % 256 = i + 1 := Nat.mod_eq_of_lt (by omega)
      have fuel1 : rest.length + 1 + 1 + k = (rest.length + 1 + k) + 1 := by omega
      rw [fuel1, s_printf_visits_succ, List.range'_succ]
      dsimp only
      rw [hc, if_neg c0]
      by_cases h37 : c = 37
      · subst h37
        have hb1 : s_printf_body K 37 { i := i, escape := false, ap := ap, out := out } =
            some { i := i + 1, escape := true, ap := ap, out := out } := by
          simp [s_printf_body, hi1]
        rw [hb1]
        dsimp only
        match rest, hm, hCr, hlen, hAr, hsp with
        | [], _, _, _, hAr, _ =>
          have h0 := StrAt_nil hAr
          simp only [List.length_nil, Nat.zero_add]
          rw [Nat.add_comm 1 k, s_printf_visits_succ]
          dsimp only
          rw [if_pos h0]
          rfl
        | d :: rest1, hm, hCr, hlen, hAr, hsp =>
          have hd := StrAt_head hAr
          obtain ⟨d0, d256⟩ := CStr_head hCr
          simp only [List.length_cons] at hlen hm ⊢
          have hi2 : (i + 1 + 1) % 256 = i + 1 + 1 := Nat.mod_eq_of_lt (by omega)
          have fuel2 : rest1.length + 1 + 1 + k = (rest1.length + 1 + k) + 1 := by omega
          rw [fuel2, s_printf_visits_succ, List.range'_succ]
          dsimp only
          rw [hd, if_neg d0]
          rw [printf_spec_escape K d rest1 ap out (i + 1)] at hsp
          cases hb : s_printf_body K d { i := i + 1, escape := true, ap := ap, out := out } with
          | none => rw [hb] at hsp; exact absurd rfl hsp
          | some st1 =>
            rw [hb] at hsp
            obtain ⟨s1, s2⟩ := s_printf_body_escape_state K d (i + 1) ap out st1 hb
            have est : st1 = { i := i + 1 + 1, escape := false, ap := st1.ap, out := st1.out } := by
              rw [hi2] at s1
              cases st1
              simp only [PfState.mk.injEq, and_true] at s1 s2 ⊢
              exact ⟨s1, s2⟩
            have IH := ih rest1.length (by omega) rest1 rfl (i + 1 + 1) st1.ap st1.out k
              (CStr_tail hCr) (by omega) (StrAt_tail hAr) hsp
            dsimp only
            rw [est, IH]
      · have hbl : s_printf_body K c { i := i, escape := false, ap := ap, out := out } =
            some { i := i + 1, escape := false, ap := ap,
                   out := s_putc c (if c = 10 then s_putc 13 out else out) } := by
          simp only [s_printf_body, if_true, if_neg (Ne.symm h37), eq_comm (a := 10), hi1]
        have e : printf_spec K (c :: rest) ap out =
            printf_spec K rest ap (s_putc c (if c = 10 then s_putc 13 out else out)) := by
          by_cases h10 : c = 10
          · subst h10; cases rest <;> simp [printf_spec, s_putc]
          · cases rest <;> simp [printf_spec, h37, h10, s_putc, Nat.mod_eq_of_lt c256]
        rw [e] at hsp
        rw [hbl]
        dsimp only
        rw [ih rest.length (by omega) rest rfl (i + 1) ap _ k hCr (by omega) hAr hsp]

/-- C17: for every format of at most 255 characters whose conversions all find their
argument, `s_printf` reaches the terminator (given more iterations than the format has
characters) with the index equal to the length, and the indices at which it examined the
format are 0, 1, ..., length, each exactly once and in increasing order: the 8-bit index
does not wrap. -/
theorem printf_index_no_wrap (K : Ch559H) (fmt : List Nat) (args : List Arg) (out : List Nat)
    (hC : CStr fmt) (hlen : fmt.length ≤ 255) (hargs : printf_spec K fmt args out ≠ none)
    (fuel : Nat) (hfuel : fmt.length < fuel) :
    (∃ st, s_printf K fuel fmt args out = Outcome.done st ∧ st.i = fmt.length) ∧
      s_printf_visits K fmt fuel { i := 0, escape := false, ap := args, out := out } =
        List.range (fmt.length + 1) := by
  obtain ⟨k, hk⟩ : ∃ k, fuel = fmt.length + 1 + k := ⟨fuel - fmt.length - 1, by omega⟩
  subst hk
  constructor
  · obtain ⟨p1, _⟩ := s_printf_loop_spec K fmt fmt.length fmt rfl 0 args out k hC (by omega)
      (StrAt_self fmt)
    cases hs : printf_spec K fmt args out with
    | none => exact absurd hs hargs
    | some r =>
      obtain ⟨e, he⟩ := p1 r hs
      exact ⟨_, he, by simp⟩
  · rw [s_printf_visits_spec K fmt fmt.length fmt rfl 0 args out k hC (by omega) (StrAt_self fmt)
      hargs, List.range_eq_range']

/-- Instance of C17 on `a%db` with the argument 7: the run ends at index 4 and the indices
examined are 0, 1, 2, 3, 4. -/
theorem printf_index_no_wrap_witness :
    s_printf_visits K0 [97, 37, 100, 98] 5
        { i := 0, escape := false, ap := [Arg.int 7], out := [] } = [0, 1, 2, 3, 4] :=
  (printf_index_no_wrap K0 [97, 37, 100, 98] [Arg.int 7] [] (by decide) (by decide)
    (by decide) 5 (by decide)).2

/-! ## Claims on the delays -/

/-- The number of passes of a loop `dec r; jnz` entered with the 8-bit value `r`: `r` itself
from 1 to 255, and 256 for 0. -/
theorem delayU8us_loop1_count (m : Nat) :
    ∀ (r7 : Nat) (st : DelayState), (r7 + 255) % 256 = m →
      (delayU8us_loop1 r7 st).outer = st.outer + (m + 1) ∧
      (delayU8us_loop1 r7 st).calls = st.calls := by
  induction m using Nat.strong_induction_on with
  | _ m ih =>
    intro r7 st hm
    rw [delayU8us_loop1]
    by_cases h : (r7 + 255) % 256 = 0
    · rw [if_pos h]
      have : m = 0 := by omega
      subst this
      exact ⟨rfl, rfl⟩
    · rw [if_neg h]
      obtain ⟨a, b⟩ := ih (m - 1) (by omega) ((r7 + 255) % 256)
        { st with outer := st.outer + 1, inner := delayU8us_loop2 8 st.inner } (by omega)
      rw [a, b]
      dsimp only
      exact ⟨by omega, rfl⟩

theorem delayU8us_outer (n : Nat) (st : DelayState) :
    (delayU8us n st).outer = st.outer + (if n % 256 = 0 then 256 else n % 256) ∧
      (delayU8us n st).calls = st.calls ++ [n % 256] := by
  unfold delayU8us
  obtain ⟨a, b⟩ := delayU8us_loop1_count ((n % 256 + 255) % 256) (n % 256)
    { st with calls := st.calls ++ [n % 256] } rfl
  rw [a, b]
  dsimp only
  refine ⟨?_, rfl⟩
  split_ifs <;> omega

theorem delayMicroseconds_spec (us : Nat) :
    ∀ st : DelayState,
      (delayMicroseconds us st).calls =
          st.calls ++ List.replicate (if us = 0 then 0 else (us - 1) / 255) 255 ++
            [us - 255 * (if us = 0 then 0 else (us - 1) / 255)] ∧
        (delayMicroseconds us st).outer = st.outer + (if us = 0 then 256 else us) := by
  induction us using Nat.strong_induction_on with
  | _ us ih =>
    intro st
    rw [delayMicroseconds]
    by_cases h : us > 255
    · rw [if_pos h]
      obtain ⟨a, b⟩ := ih (us - 255) (by omega) (delayU8us 255 st)
      obtain ⟨c, d⟩ := delayU8us_outer 255 st
      have k1 : (us - 1) / 255 = (us - 255 - 1) / 255 + 1 := by omega
      have u0 : ¬ us = 0 := by omega
      have u1 : ¬ us - 255 = 0 := by omega
      rw [a, b, c, d]
      simp only [if_neg u0, if_neg u1, k1]
      constructor
      · rw [List.replicate_succ]
        simp only [List.append_assoc, List.singleton_append, List.cons_append, List.nil_append]
        have : us - 255 - 255 * ((us - 255 - 1) / 255) =
            us - 255 * ((us - 255 - 1) / 255 + 1) := by omega
        rw [this]
      · simp only [show (255 : Nat) % 256 = 255 by rfl, show ¬ (255 : Nat) = 0 by decide,
          if_false]
        omega
    · rw [if_neg h]
      have m : us &&& 0xff = us % 256 := Nat.and_pow_two_sub_one_eq_mod us 8
      obtain ⟨c, d⟩ := delayU8us_outer (us &&& 0xff) st
      rw [c, d, m]
      have e : us % 256 % 256 = us := by omega
      have k0 : (us - 1) / 255 = 0 := by omega
      rw [e]
      constructor
      · by_cases u0 : us = 0
        · simp [u0]
        · simp [u0, k0]
      · by_cases u0 : us = 0
        · simp [u0]
        · simp [u0]

/-- C13: for every 32-bit count `us`, `delayMicroseconds(us)` ends, and its calls of
`delayU8us` are `k` calls with the argument 255 followed by one call with the remainder
`us - 255 * k`, where `k` is 0 for `us = 0` and `(us - 1) / 255` otherwise; the remainder
is at most 255, so it equals `us - 255 * k` reduced to a byte, and the arguments add up to
`us`. -/
theorem delayMicroseconds_calls (us : Nat) (_h32 : us < 2 ^ 32) (st : DelayState) :
    (delayMicroseconds us st).calls =
        st.calls ++ List.replicate (if us = 0 then 0 else (us - 1) / 255) 255 ++
          [us - 255 * (if us = 0 then 0 else (us - 1) / 255)] ∧
      us - 255 * (if us = 0 then 0 else (us - 1) / 255) ≤ 255 ∧
      (us - 255 * (if us = 0 then 0 else (us - 1) / 255)) &&& 0xff =
        us - 255 * (if us = 0 then 0 else (us - 1) / 255) ∧
      (List.replicate (if us = 0 then 0 else (us - 1) / 255) 255 ++
          [us - 255 * (if us = 0 then 0 else (us - 1) / 255)]).sum = us := by
  have hr : us - 255 * (if us = 0 then 0 else (us - 1) / 255) ≤ 255 := by
    split_ifs <;> omega
  refine ⟨(delayMicroseconds_spec us st).1, hr, ?_, ?_⟩
  · have m := Nat.and_pow_two_sub_one_eq_mod
      (us - 255 * (if us = 0 then 0 else (us - 1) / 255)) 8
    have : (us - 255 * (if us = 0 then 0 else (us - 1) / 255)) % 2 ^ 8 =
        us - 255 * (if us = 0 then 0 else (us - 1) / 255) := Nat.mod_eq_of_lt (by omega)
    rw [this] at m
    exact m
  · rw [List.sum_append, List.sum_replicate]
    simp only [List.sum_cons, List.sum_nil, smul_eq_mul, Nat.add_zero]
    split_ifs <;> omega

/-- Instance of C13 at 1000 microseconds: three calls with 255 and one with 235. -/
theorem delayMicroseconds_calls_witness :
    (delayMicroseconds 1000 DelayState.zero).calls = [255, 255, 255, 235] :=
  (delayMicroseconds_calls 1000 (by decide) DelayState.zero).1.trans (by decide)

/-- C20: `delayU8us(n)` passes through the body of its outer loop `n` times for `n` from 1
to 255 and 256 times for `n = 0` (the counter is decremented before it is tested); hence
`delayMicroseconds(0)` makes 256 outer passes, more than the 255 of
`delayMicroseconds(255)`, and for every count of at least 1 the outer passes of
`delayMicroseconds(count)` add up to the count. -/
theorem delay_outer_iterations (n count : Nat) (hn1 : 1 ≤ n) (hn : n ≤ 255) (hc : 1 ≤ count)
    (_h32 : count < 2 ^ 32) (st : DelayState) :
    (delayU8us n st).outer = st.outer + n ∧
      (delayU8us 0 st).outer = st.outer + 256 ∧
      (delayMicroseconds 0 st).outer = st.outer + 256 ∧
      (delayMicroseconds 255 st).outer = st.outer + 255 ∧
      (delayMicroseconds count st).outer = st.outer + count := by
  refine ⟨?_, ?_, ?_, ?_, ?_⟩
  · rw [(delayU8us_outer n st).1]
    have : n % 256 = n := Nat.mod_eq_of_lt (by omega)
    rw [this, if_neg (by omega)]
  · rw [(delayU8us_outer 0 st).1]; rfl
  · rw [(delayMicroseconds_spec 0 st).2]; rfl
  · rw [(delayMicroseconds_spec 255 st).2]; rfl
  · rw [(delayMicroseconds_spec count st).2, if_neg (by omega)]

/-- Instance of C20: `delayU8us(8)` makes 8 outer passes and `delayMicroseconds(1000)`
makes 1000. -/
theorem delay_outer_iterations_witness :
    (delayU8us 8 DelayState.zero).outer = 8 ∧
      (delayMicroseconds 1000 DelayState.zero).outer = 1000 := by
  obtain ⟨a, _, _, _, e⟩ :=
    delay_outer_iterations 8 1000 (by decide) (by decide) (by decide) (by decide)
      DelayState.zero
  exact ⟨a.trans (by decide), e.trans (by decide)⟩

/-! ## Bring-up: lemmas -/

theorem Mcu_s_putc_spec (uart0 : Bool) (val : Nat) (m : Mcu) :
    ∃ rest, (Mcu.s_putc uart0 val m).writes = m.writes ++ rest ∧
      (∀ e ∈ rest, e.1 = Reg.TI ∨ e.1 = Reg.SBUF) ∧
      (∀ r, r ≠ Reg.TI → r ≠ Reg.SBUF → (Mcu.s_putc uart0 val m).reg r = m.reg r) ∧
      (Mcu.s_putc uart0 val m).Serial = m.Serial ∧
      (Mcu.s_putc uart0 val m).out = s_putc val m.out := by
  cases uart0
  · refine ⟨[], ?_, ?_, ?_, ?_, ?_⟩ <;> simp [Mcu.s_putc, s_putc]
  · refine ⟨[(Reg.TI, 0), (Reg.SBUF, (val % 256 &&& 0xff) % 256)], ?_, ?_, ?_, ?_, ?_⟩
    · simp [Mcu.s_putc, Mcu.putchar, writeReg]
    · simp
    · intro r h1 h2
      simp [Mcu.s_putc, Mcu.putchar, writeReg, h1, h2]
    · simp [Mcu.s_putc, Mcu.putchar, writeReg]
    · simp [Mcu.s_putc, Mcu.putchar, writeReg, s_putc]

/-- With `Serial.putc` assigned, `s_print` on the machine is defined; it writes only `TI`
and `SBUF`, leaves the table alone and hands to `Serial.putc` the bytes `s_print` emits. -/
theorem Mcu_s_print_spec (uart0 : Bool) :
    ∀ (val : List Nat) (m : Mcu), m.Serial.putc = some SerialFn.s_putc →
      ∃ m1 rest, Mcu.s_print uart0 val m = some m1 ∧ m1.writes = m.writes ++ rest ∧
        (∀ e ∈ rest, e.1 = Reg.TI ∨ e.1 = Reg.SBUF) ∧
        (∀ r, r ≠ Reg.TI → r ≠ Reg.SBUF → m1.reg r = m.reg r) ∧
        m1.Serial = m.Serial ∧ m1.out = s_print val m.out := by
  intro val
  induction val with
  | nil =>
    intro m _
    exact ⟨m, [], rfl, by simp, by simp, fun _ _ _ => rfl, rfl, rfl⟩
  | cons c cs ih =>
    intro m hp
    by_cases h0 : c = 0
    · refine ⟨m, [], ?_, by simp, by simp, fun _ _ _ => rfl, rfl, ?_⟩
      · simp [Mcu.s_print, h0]
      · simp [s_print, h0]
    · obtain ⟨r1, a1, a2, a3, a4, a5⟩ := Mcu_s_putc_spec uart0 c m
      obtain ⟨m2, r2, b1, b2, b3, b4, b5, b6⟩ := ih (Mcu.s_putc uart0 c m) (by rw [a4]; exact hp)
      refine ⟨m2, r1 ++ r2, ?_, ?_, ?_, ?_, ?_, ?_⟩
      · simp [Mcu.s_print, h0, Mcu.call_putc, hp, b1]
      · rw [b2, a1, List.append_assoc]
      · intro e he
        rcases List.mem_append.mp he with h | h
        · exact a2 e h
        · exact b3 e h
      · intro r h1 h2
        rw [b4 r h1 h2, a3 r h1 h2]
      · rw [b5, a4]
      · rw [b6, a5]
        simp [s_print, h0]

/-- With `Serial.putc`, `Serial.print` and `Serial.println` assigned, a call of
`Serial.println` is defined; it writes only `TI` and `SBUF` and hands to `Serial.putc` the
bytes `s_println` emits. -/
theorem Mcu_call_println_spec (uart0 : Bool) (val : List Nat) (m : Mcu)
    (h1 : m.Serial.putc = some SerialFn.s_putc) (h2 : m.Serial.print = some SerialFn.s_print)
    (h3 : m.Serial.println = some SerialFn.s_println) :
    ∃ m1 rest, Mcu.call_println uart0 val m = some m1 ∧ m1.writes = m.writes ++ rest ∧
      (∀ e ∈ rest, e.1 = Reg.TI ∨ e.1 = Reg.SBUF) ∧
      (∀ r, r ≠ Reg.TI → r ≠ Reg.SBUF → m1.reg r = m.reg r) ∧
      m1.Serial = m.Serial ∧ m1.out = s_println val m.out := by
  obtain ⟨ma, ra, a1, a2, a3, a4, a5, a6⟩ := Mcu_s_print_spec uart0 val m h1
  obtain ⟨mb, rb, b1, b2, b3, b4, b5, b6⟩ :=
    Mcu_s_print_spec uart0 [13, 10] ma (by rw [a5]; exact h1)
  refine ⟨mb, ra ++ rb, ?_, ?_, ?_, ?_, ?_, ?_⟩
  · simp [Mcu.call_println, h3, Mcu.s_println, Mcu.call_print, h2, a1, a5, b1]
  · rw [b2, a2, List.append_assoc]
  · intro e he
    rcases List.mem_append.mp he with h | h
    · exact a3 e h
    · exact b3 e h
  · intro r g1 g2
    rw [b4 r g1 g2, a4 r g1 g2]
  · rw [b5, a5]
  · rw [b6, a6]; rfl

/-- What the part of the bring-up before the test of `RESET_KEEP` does: its first five writes
are the unlock pair, `CLOCK_CFG`, `PLL_CFG` and the lock; the writes after them touch
neither these three registers nor `RESET_KEEP`; nothing is emitted and the table is set. -/
theorem initialize_setup_spec (io : IoH) (uart0 : Bool) (m : Mcu) :
    ∃ rest, (initialize_setup io uart0 m).writes =
        m.writes ++ [(Reg.SAFE_MOD, 0x55), (Reg.SAFE_MOD, 0xaa),
          (Reg.CLOCK_CFG, ((m.reg Reg.CLOCK_CFG &&& not16 io.MASK_SYS_CK_DIV) ||| 6) % 256),
          (Reg.PLL_CFG, 216), (Reg.SAFE_MOD, 0)] ++ rest ∧
      (∀ e ∈ rest, e.1.guarded = false ∧ e.1 ≠ Reg.RESET_KEEP) ∧
      (initialize_setup io uart0 m).reg Reg.SAFE_MOD = 0 ∧
      (initialize_setup io uart0 m).reg Reg.CLOCK_CFG =
        ((m.reg Reg.CLOCK_CFG &&& not16 io.MASK_SYS_CK_DIV) ||| 6) % 256 ∧
      (initialize_setup io uart0 m).reg Reg.PLL_CFG = 216 ∧
      (initialize_setup io uart0 m).reg Reg.RESET_KEEP = m.reg Reg.RESET_KEEP ∧
      (initialize_setup io uart0 m).Serial =
        { putc := some SerialFn.s_putc, printc := some SerialFn.s_printc,
          print := some SerialFn.s_print, println := some SerialFn.s_println,
          printf := some SerialFn.s_printf } ∧
      (initialize_setup io uart0 m).out = m.out := by
  cases uart0
  · refine ⟨[(Reg.SM0, 0), (Reg.SM1, 1), (Reg.TMOD, (m.reg Reg.TMOD ||| io.bT1_M1) % 256),
      (Reg.T2MOD, (m.reg Reg.T2MOD ||| (io.bTMR_CLK ||| io.bT1_CLK)) % 256),
      (Reg.PCON, (m.reg Reg.PCON ||| io.SMOD) % 256), (Reg.TH1, 230), (Reg.TR1, 1),
      (Reg.TI, 1), (Reg.PORT_CFG, 0)], ?_, ?_, ?_, ?_, ?_, ?_, ?_, ?_⟩ <;>
      simp [initialize_setup, writeReg, Reg.guarded,
        show ((216 : Nat) &&& 255) % 256 = 216 by decide]
  · refine ⟨[(Reg.P0_DIR, (m.reg Reg.P0_DIR ||| 0x08) % 256),
      (Reg.P0_PU, (m.reg Reg.P0_PU ||| 0x08) % 256),
      (Reg.PIN_FUNC, (m.reg Reg.PIN_FUNC ||| io.bUART0_PIN_X) % 256),
      (Reg.SM0, 0), (Reg.SM1, 1), (Reg.TMOD, (m.reg Reg.TMOD ||| io.bT1_M1) % 256),
      (Reg.T2MOD, (m.reg Reg.T2MOD ||| (io.bTMR_CLK ||| io.bT1_CLK)) % 256),
      (Reg.PCON, (m.reg Reg.PCON ||| io.SMOD) % 256), (Reg.TH1, 230), (Reg.TR1, 1),
      (Reg.TI, 1), (Reg.PORT_CFG, 0)], ?_, ?_, ?_, ?_, ?_, ?_, ?_, ?_⟩ <;>
      simp [initialize_setup, writeReg, Reg.guarded,
        show ((216 : Nat) &&& 255) % 256 = 216 by decide]

/-- The bring-up as a whole: it calls the bootloader when `RESET_KEEP` is set on entry and
returns otherwise, in a state `mf` whose writes are the five of the clock bracket followed
by writes outside the bracket registers. -/
theorem initialize_run_spec (io : IoH) (uart0 : Bool) (m : Mcu) :
    ∃ mf rest,
      initialize_run io uart0 m =
        (if m.reg Reg.RESET_KEEP ≠ 0 then InitOutcome.bootloader mf
          else InitOutcome.returned mf) ∧
      mf.writes =
        m.writes ++ [(Reg.SAFE_MOD, 0x55), (Reg.SAFE_MOD, 0xaa),
          (Reg.CLOCK_CFG, ((m.reg Reg.CLOCK_CFG &&& not16 io.MASK_SYS_CK_DIV) ||| 6) % 256),
          (Reg.PLL_CFG, 216), (Reg.SAFE_MOD, 0)] ++ rest ∧
      (∀ e ∈ rest, e.1.guarded = false) ∧
      (Reg.RESET_KEEP, if m.reg Reg.RESET_KEEP ≠ 0 then 0 else 1) ∈ rest ∧
      mf.reg Reg.SAFE_MOD = 0 ∧
      mf.reg Reg.CLOCK_CFG =
        ((m.reg Reg.CLOCK_CFG &&& not16 io.MASK_SYS_CK_DIV) ||| 6) % 256 ∧
      mf.reg Reg.PLL_CFG = 216 ∧
      mf.reg Reg.RESET_KEEP = (if m.reg Reg.RESET_KEEP ≠ 0 then 0 else 1) ∧
      mf.out = (if m.reg Reg.RESET_KEEP ≠ 0 then s_println strBootloader m.out else m.out) := by
  obtain ⟨r0, w, g, s1, s2, s3, s4, s5, s6⟩ := initialize_setup_spec io uart0 m
  by_cases hk : m.reg Reg.RESET_KEEP ≠ 0
  · have hk1 : (initialize_setup io uart0 m).reg Reg.RESET_KEEP ≠ 0 := by rw [s4]; exact hk
    obtain ⟨m3, r3, p1, p2, p3, p4, p5, p6⟩ := Mcu_call_println_spec uart0 strBootloader
      (writeReg Reg.RESET_KEEP 0 (initialize_setup io uart0 m))
      (by simp [writeReg, s5]) (by simp [writeReg, s5]) (by simp [writeReg, s5])
    refine ⟨m3, r0 ++ [(Reg.RESET_KEEP, 0)] ++ r3, ?_, ?_, ?_, ?_, ?_, ?_, ?_, ?_, ?_⟩
    · simp only [initialize_run, if_pos hk1, p1, if_pos hk]
    · rw [p2]
      simp only [writeReg, w, List.append_assoc]
    · intro e he
      rcases List.mem_append.mp he with h | h
      · rcases List.mem_append.mp h with h | h
        · exact (g e h).1
        · simp only [List.mem_singleton] at h
          rw [h]; rfl
      · rcases p3 e h with h | h <;> rw [h] <;> rfl
    · rw [if_pos hk]; simp
    · rw [p4 _ (by decide) (by decide)]
      simpa [writeReg] using s1
    · rw [p4 _ (by decide) (by decide)]
      simpa [writeReg] using s2
    · rw [p4 _ (by decide) (by decide)]
      simpa [writeReg] using s3
    · rw [p4 _ (by decide) (by decide), if_pos hk]
      simp [writeReg]
    · rw [p6, if_pos hk]
      simp [writeReg, s6]
  · have hk1 : ¬ (initialize_setup io uart0 m).reg Reg.RESET_KEEP ≠ 0 := by rw [s4]; exact hk
    refine ⟨writeReg Reg.RESET_KEEP 1 (initialize_setup io uart0 m), r0 ++ [(Reg.RESET_KEEP, 1)],
      ?_, ?_, ?_, ?_, ?_, ?_, ?_, ?_, ?_⟩
    · simp only [initialize_run, if_neg hk1, if_neg hk]
    · simp only [writeReg, w, List.append_assoc]
    · intro e he
      rcases List.mem_append.mp he with h | h
      · exact (g e h).1
      · simp only [List.mem_singleton] at h
        rw [h]; rfl
    · rw [if_neg hk]; simp
    · simpa [writeReg] using s1
    · simpa [writeReg] using s2
    · simpa [writeReg] using s3
    · rw [if_neg hk]; simp [writeReg]
    · rw [if_neg hk]; simp [writeReg, s6]

theorem s_println_bootloader (out : List Nat) :
    s_println strBootloader out =
      out ++ [98, 111, 111, 116, 108, 111, 97, 100, 101, 114, 13, 10] := by
  simp [s_println, strBootloader, s_print, s_putc]

set_option maxRecDepth 100000 in
theorem clock_cfg_field : ∀ c, c < 256 →
    ((c &&& not16 0x1f) ||| 6) % 256 = (c &&& not16 0x1f) ||| 6 ∧
      ((c &&& not16 0x1f) ||| 6) &&& 0x1f = 6 ∧
      ((c &&& not16 0x1f) ||| 6) &&& 0xe0 = c &&& 0xe0 := by
  decide

/-! ## Claims on the bring-up -/

/-- C14: in the register writes of the bring-up, up to its return or its call of the
bootloader, the first five are `SAFE_MOD = 0x55`, `SAFE_MOD = 0xaa`, `CLOCK_CFG`, `PLL_CFG`
and `SAFE_MOD = 0`, in this order, and no later write goes to `SAFE_MOD`, `CLOCK_CFG` or
`PLL_CFG`: both protected registers are written inside the bracket, `CLOCK_CFG` first, the
bracket is closed before any other register is written, and `SAFE_MOD` is 0 at the end.
The statement left for the case that the bootloader returns writes `RESET_KEEP` only. -/
theorem init_safe_mode_bracket (io : IoH) (uart0 : Bool) (m : Mcu) :
    (∃ mf a b rest, (initialize_run io uart0 m).state = some mf ∧
      mf.writes =
        m.writes ++ [(Reg.SAFE_MOD, 0x55), (Reg.SAFE_MOD, 0xaa), (Reg.CLOCK_CFG, a),
          (Reg.PLL_CFG, b), (Reg.SAFE_MOD, 0)] ++ rest ∧
      (∀ e ∈ rest, e.1 ≠ Reg.SAFE_MOD ∧ e.1 ≠ Reg.CLOCK_CFG ∧ e.1 ≠ Reg.PLL_CFG) ∧
      mf.reg Reg.SAFE_MOD = 0) ∧
      (∀ x : Mcu, (initialize_resume x).writes = x.writes ++ [(Reg.RESET_KEEP, 1)] ∧
        (initialize_resume x).reg Reg.SAFE_MOD = x.reg Reg.SAFE_MOD) := by
  constructor
  · obtain ⟨mf, rest, h1, h2, h3, _, h5, _⟩ := initialize_run_spec io uart0 m
    refine ⟨mf, _, _, rest, ?_, h2, ?_, h5⟩
    · rw [h1]; split_ifs <;> rfl
    · intro e he
      have g := h3 e he
      simp only [Reg.guarded, decide_eq_false_iff_not, not_or] at g
      exact g
  · intro x
    constructor
    · simp [initialize_resume, writeReg]
    · simp [initialize_resume, writeReg]

/-- C15: when `RESET_KEEP` is not zero on entry, the bring-up calls the bootloader, and at
that moment `RESET_KEEP` has been written to 0 and the line `bootloader`, carriage return,
newline has been emitted, through a table that need not have been assigned before the
call of the bring-up; when `RESET_KEEP` is zero on entry, the bring-up returns without
calling the bootloader, emits nothing, and leaves `RESET_KEEP` at 1. -/
theorem init_reset_keep (io : IoH) (uart0 : Bool) (m : Mcu) :
    (m.reg Reg.RESET_KEEP ≠ 0 →
      ∃ mb, initialize_run io uart0 m = InitOutcome.bootloader mb ∧
        mb.reg Reg.RESET_KEEP = 0 ∧ (Reg.RESET_KEEP, 0) ∈ mb.writes ∧
        mb.out = m.out ++ [98, 111, 111, 116, 108, 111, 97, 100, 101, 114, 13, 10]) ∧
      (m.reg Reg.RESET_KEEP = 0 →
        ∃ mr, initialize_run io uart0 m = InitOutcome.returned mr ∧ mr.out = m.out ∧
          mr.reg Reg.RESET_KEEP = 1 ∧ (Reg.RESET_KEEP, 1) ∈ mr.writes) := by
  obtain ⟨mf, rest, h1, h2, _, h4, _, _, _, h8, h9⟩ := initialize_run_spec io uart0 m
  constructor
  · intro hk
    rw [if_pos hk] at h1 h4 h8 h9
    refine ⟨mf, h1, h8, ?_, ?_⟩
    · rw [h2]; exact List.mem_append_right _ h4
    · rw [h9, s_println_bootloader]
  · intro hk
    have hk1 : ¬ m.reg Reg.RESET_KEEP ≠ 0 := fun h => h hk
    rw [if_neg hk1] at h1 h4 h8 h9
    refine ⟨mf, h1, h9, h8, ?_⟩
    rw [h2]; exact List.mem_append_right _ h4

/-- Instance of C15: with `RESET_KEEP` set and the table unassigned the bootloader is
called after the line was emitted; with `RESET_KEEP` clear the bring-up returns silently. -/
theorem init_reset_keep_witness :
    (∃ mb, initialize_run io0 true Mcu.sample = InitOutcome.bootloader mb ∧
      mb.reg Reg.RESET_KEEP = 0 ∧
      mb.out = [98, 111, 111, 116, 108, 111, 97, 100, 101, 114, 13, 10]) ∧
      (∃ mr, initialize_run io0 true Mcu.zero = InitOutcome.returned mr ∧ mr.out = [] ∧
        mr.reg Reg.RESET_KEEP = 1) := by
  obtain ⟨mb, a1, a2, _, a4⟩ := (init_reset_keep io0 true Mcu.sample).1 (by decide)
  obtain ⟨mr, b1, b2, b3, _⟩ := (init_reset_keep io0 true Mcu.zero).2 (by decide)
  exact ⟨⟨mb, a1, a2, a4⟩, ⟨mr, b1, b2, b3⟩⟩

/-- C16: with the divider mask 0x1f and `c` the byte in `CLOCK_CFG` on entry, the bring-up
writes `CLOCK_CFG = (c AND NOT MASK_SYS_CK_DIV) OR 6`, a byte whose divider field is 6 and
whose bits outside the field are those of `c`; and it writes `PLL_CFG = 0xd8`, whose low
five bits are 24 and whose top three bits are 6, the value of the expression before the
`& 0xff`. -/
theorem init_clock_values (io : IoH) (hM : io.MASK_SYS_CK_DIV = 0x1f) (uart0 : Bool) (m : Mcu)
    (hc : m.reg Reg.CLOCK_CFG < 256) :
    ∃ mf, (initialize_run io uart0 m).state = some mf ∧
      (Reg.CLOCK_CFG, (m.reg Reg.CLOCK_CFG &&& not16 io.MASK_SYS_CK_DIV) ||| 6) ∈ mf.writes ∧
      mf.reg Reg.CLOCK_CFG = (m.reg Reg.CLOCK_CFG &&& not16 io.MASK_SYS_CK_DIV) ||| 6 ∧
      mf.reg Reg.CLOCK_CFG &&& 0x1f = 6 ∧
      mf.reg Reg.CLOCK_CFG &&& 0xe0 = m.reg Reg.CLOCK_CFG &&& 0xe0 ∧
      (Reg.PLL_CFG, 0xd8) ∈ mf.writes ∧ mf.reg Reg.PLL_CFG = 0xd8 ∧
      (0xd8 : Nat) &&& 0x1f = 24 ∧ (0xd8 : Nat) >>> 5 = 6 ∧
      ((24 <<< 0) ||| (6 <<< 5) : Nat) = 0xd8 := by
  obtain ⟨mf, rest, h1, h2, _, _, _, h6, h7, _⟩ := initialize_run_spec io uart0 m
  obtain ⟨f1, f2, f3⟩ := clock_cfg_field (m.reg Reg.CLOCK_CFG) hc
  rw [hM] at h2 h6 ⊢
  rw [f1] at h2 h6
  refine ⟨mf, ?_, ?_, h6, ?_, ?_, ?_, h7, by decide, by decide, by decide⟩
  · rw [h1]; split_ifs <;> rfl
  · rw [h2]; simp
  · rw [h6]; exact f2
  · rw [h6]; exact f3
  · rw [h2]; simp

/-- Instance of C16: from `CLOCK_CFG = 0xe3` the bring-up leaves `CLOCK_CFG = 0xe6` and
`PLL_CFG = 0xd8`. -/
theorem init_clock_values_witness :
    ∃ mf, (initialize_run io0 true Mcu.sample).state = some mf ∧
      mf.reg Reg.CLOCK_CFG = 0xe6 ∧ mf.reg Reg.PLL_CFG = 0xd8 := by
  obtain ⟨mf, a1, _, a3, _, _, _, a7, _⟩ :=
    init_clock_values io0 rfl true Mcu.sample (by decide)
  exact ⟨mf, a1, a3.trans (by decide), a7⟩

end Ch559
